import Mathlib

/-!
Verification of the mocap-converter core against its specification.

The repository carries two historical snapshots of the same design
(`bvh_converter` and `mocap_converter`); per the specification the final,
most complete component versions are authoritative.  The embedding below
follows:
  * `kinematic_tree.py` (immutable name-indexed tree, structural validation),
  * `node.py` (immutable `Node` with offset shape validation, `mocap_converter`),
  * `io/bvh/loader.py` (BVH text parsing pipeline),
  * `io/bvh/types.py`, `io/bvh/channel_layout.py` (channel layouts),
  * `motion_data.py` (`mocap_converter`, shape/frame-count invariants),
  * `io/bvh/saver.py` (`mocap_converter`, hierarchy and motion emission),
  * `rot2pos.py` (`mocap_converter`, forward kinematics).

Numeric model: parsed text values, offsets and frame values are embedded as
rationals (every IEEE double is rational, and the decimal literals appearing
in BVH text denote exact rationals); quaternions produced by the external
rotation capability (`scipy.spatial.transform.Rotation`, declared an external
capability by the spec) are embedded as real quaternions with exact
trigonometry.
-/

set_option linter.unusedVariables false
set_option maxRecDepth 40000

deriving instance DecidableEq for Except

namespace Bvh

/-! ### Python dict as an insertion-ordered association list -/

/-- Insert into a Python-style dict: replacing an existing key keeps the
original insertion position, a new key is appended at the end. -/
def dinsert (m : List (String × α)) (k : String) (v : α) : List (String × α) :=
  match m with
  | [] => [(k, v)]
  | (k', v') :: rest => if k' = k then (k, v) :: rest else (k', v') :: dinsert rest k v

/-- Dict lookup (first matching key; keys are unique for dicts built by
`dictOf`). -/
def dlook (m : List (String × α)) (k : String) : Option α :=
  match m with
  | [] => none
  | (k', v') :: rest => if k' = k then some v' else dlook rest k

def dkeys (m : List (String × α)) : List String := m.map Prod.fst

def dvalues (m : List (String × α)) : List α := m.map Prod.snd

/-- Build a dict from a list of key-value pairs, later entries overriding
earlier ones in place (Python dict comprehension semantics). -/
def dictOf (l : List (String × α)) : List (String × α) :=
  l.foldl (fun m p => dinsert m p.1 p.2) []

/-! ### Errors

One constructor per exception class that the embedded code can raise:
`ParseError`, `ValueError`, `KeyError`, `IndexError` (Python built-ins raised
by out-of-range token indexing), and the three `KinematicTree` structural
errors. -/

inductive Err where
  | parseError
  | valueError
  | keyError
  | indexError
  | noRootError
  | notConnectedError
  | circularReferenceError
deriving DecidableEq, Repr

/-! ### Node (`node.py`, immutable final version) -/

structure Node where
  name : String
  parent_name : Option String
  offset : List ℚ
deriving DecidableEq, Repr

/-- `Node.is_root`: true iff the node has no parent. -/
def Node.is_root (n : Node) : Bool := n.parent_name.isNone

/-- `Node.__init__` + `__post_init__`: the offset must have shape `(3,)`,
otherwise `ValueError` is raised. -/
def Node.make (name : String) (parent_name : Option String) (offset : List ℚ) :
    Except Err Node :=
  if offset.length = 3 then .ok ⟨name, parent_name, offset⟩ else .error .valueError

/-- `Node.copy_with(offset=...)`: validates the new offset shape. -/
def Node.copyWithOffset (n : Node) (offset : List ℚ) : Except Err Node :=
  if offset.length = 3 then .ok ⟨n.name, n.parent_name, offset⟩ else .error .valueError

/-- The default zero offset `np.zeros(3)`. -/
def zeroOffset : List ℚ := [0, 0, 0]

/-! ### KinematicTree (`kinematic_tree.py`) -/

structure KinematicTree where
  nodes : List (String × Node)
deriving DecidableEq, Repr

/-- Number of names of `m` not yet in `visited` — the termination measure of
the source's `_check_path_to_root` walk (the walk only recurses after adding
an unvisited name to the global `visited` set). -/
def unvisitedCount (m : List (String × Node)) (visited : List String) : Nat :=
  ((dkeys m).filter (fun k => decide (k ∉ visited))).length

/-- Fuel-indexed body of `_check_path_to_root`.  The fuel is a recursion-depth
bound only; `checkPathToRoot` instantiates it with the walk's termination
measure plus one, which `checkPathToRoot_eq` proves is never exhausted, so the
fuel-out branch is unreachable. -/
def checkPathToRootAux (m : List (String × Node)) :
    Nat → String → List String → List String → Except Err (List String)
  | 0, _, _, _ => .error .circularReferenceError
  | fuel + 1, node_name, path, visited =>
    if node_name ∈ path then .error .circularReferenceError
    else if node_name ∈ visited then .ok visited
    else
      match dlook m node_name with
      | none => .error .notConnectedError
      | some node =>
        match node.parent_name with
        | none => .ok (node_name :: visited)
        | some p =>
          if p ∈ dkeys m then
            checkPathToRootAux m fuel p (node_name :: path) (node_name :: visited)
          else .error .notConnectedError

/-- `KinematicTree._check_path_to_root`: walk the parent chain from
`node_name`; a name already on the current walk is a circular reference, a
name already validated by an earlier walk ends this walk; missing nodes or
unresolvable parents are `NotConnectedError`.  The (threaded) `visited` set
is returned on success.  The source recursion terminates because each
recursive call adds an unvisited key to `visited`; the embedding makes that
measure the explicit recursion bound. -/
def checkPathToRoot (m : List (String × Node)) (node_name : String)
    (path : List String) (visited : List String) : Except Err (List String) :=
  checkPathToRootAux m (unvisitedCount m visited + 1) node_name path visited

/-- The per-node loop of `_validate_tree_structure`: walk to the root from
every node value not yet globally visited. -/
def validateWalks (m : List (String × Node)) :
    List Node → List String → Except Err Unit
  | [], _ => .ok ()
  | node :: rest, visited =>
    if node.name ∈ visited then validateWalks m rest visited
    else
      match checkPathToRoot m node.name [] visited with
      | .error e => .error e
      | .ok visited' => validateWalks m rest visited'

/-- `KinematicTree._validate_tree_structure`: an empty tree is accepted;
otherwise exactly one root is required (`NoRootError` / `NotConnectedError`),
then every node must reach the root without cycles. -/
def validateTreeStructure (m : List (String × Node)) : Except Err Unit :=
  if m.isEmpty then .ok ()
  else
    if ((dvalues m).filter (fun n => n.is_root)).length = 0 then .error .noRootError
    else if ((dvalues m).filter (fun n => n.is_root)).length > 1 then
      .error .notConnectedError
    else validateWalks m (dvalues m) []

/-- `KinematicTree.__init__`/`__post_init__`: store the node dict after
validating the tree structure. -/
def KinematicTree.make (m : List (String × Node)) : Except Err KinematicTree :=
  (validateTreeStructure m).map (fun _ => ⟨m⟩)

/-- `KinematicTree.from_nodes`: build the `{node.name: node}` dict and
construct the tree. -/
def fromNodes (l : List Node) : Except Err KinematicTree :=
  KinematicTree.make (dictOf (l.map (fun n => (n.name, n))))

/-- `KinematicTree.root`: first root among the node values, or `None`. -/
def KinematicTree.root (t : KinematicTree) : Option Node :=
  ((dvalues t.nodes).filter (fun n => n.is_root)).head?

/-- `len(KinematicTree)`. -/
def KinematicTree.len (t : KinematicTree) : Nat := t.nodes.length

/-- `KinematicTree.get_node` (raises `KeyError` when absent). -/
def KinematicTree.get_node (t : KinematicTree) (name : String) : Except Err Node :=
  match dlook t.nodes name with
  | some n => .ok n
  | none => .error .keyError

/-- `KinematicTree.get_children`: all node values whose `parent_name` equals
the given name, in dict order. -/
def KinematicTree.get_children (t : KinematicTree) (name : String) : List Node :=
  (dvalues t.nodes).filter (fun n => decide (n.parent_name = some name))

/-- `KinematicTree.has_children`. -/
def KinematicTree.has_children (t : KinematicTree) (name : String) : Bool :=
  (dvalues t.nodes).any (fun n => decide (n.parent_name = some name))

/-- `KinematicTree.is_leaf`. -/
def KinematicTree.is_leaf (t : KinematicTree) (name : String) : Bool :=
  !t.has_children name

/-- `KinematicTree.has_siblings`: `KeyError` when the node itself is absent
(via `get_node` inside `get_parent`); a node with no resolvable parent has no
siblings; otherwise true iff some child of the parent has a different name. -/
def KinematicTree.has_siblings (t : KinematicTree) (name : String) : Except Err Bool :=
  match dlook t.nodes name with
  | none => .error .keyError
  | some nd =>
    match nd.parent_name with
    | none => .ok false
    | some pn =>
      match dlook t.nodes pn with
      | none => .ok false
      | some p => .ok ((t.get_children p.name).any (fun c => decide (c.name ≠ name)))

/-! ### Reachability (specification-side, decidable)

`reach m name fuel` follows parent links from `name` and reports whether a
root is reached within `fuel` steps; `distToRoot` additionally counts steps.
These express the claims' hypotheses "all parents resolving and no cycles"
(equivalently: every node reaches the root) and "contains a parent cycle"
(some node never reaches the root although all parents resolve). -/

def reach (m : List (String × Node)) : String → Nat → Bool
  | name, 0 =>
    match dlook m name with
    | none => false
    | some nd => nd.parent_name.isNone
  | name, fuel + 1 =>
    match dlook m name with
    | none => false
    | some nd =>
      match nd.parent_name with
      | none => true
      | some p => reach m p fuel

def distToRoot (m : List (String × Node)) : String → Nat → Option Nat
  | name, 0 =>
    match dlook m name with
    | none => none
    | some nd => if nd.parent_name.isNone then some 0 else none
  | name, fuel + 1 =>
    match dlook m name with
    | none => none
    | some nd =>
      match nd.parent_name with
      | none => some 0
      | some p => (distToRoot m p fuel).map (· + 1)

/-- Every node of the dict reaches the root: the decidable rendering of
"all parents resolve and the parent references are acyclic". -/
def allReach (m : List (String × Node)) : Bool :=
  (dkeys m).all (fun k => reach m k m.length)

/-- Every stored parent reference resolves to a key of the dict. -/
def parentsResolve (m : List (String × Node)) : Bool :=
  (dvalues m).all (fun nd =>
    match nd.parent_name with
    | none => true
    | some p => decide (p ∈ dkeys m))

/-- Some node never reaches the root within `m.length` steps: together with
`parentsResolve` this is equivalent to the parent references containing a
directed cycle. -/
def hasCycle (m : List (String × Node)) : Bool :=
  (dkeys m).any (fun k => !reach m k m.length)

/-- The `{node.name: node}` pair list built by `from_nodes` before dict
construction. -/
def pairsOf (l : List Node) : List (String × Node) :=
  l.map (fun n => (n.name, n))

/-- Option-valued traversal (structural `mapM` over `Option`). -/
def omapM (f : α → Option β) : List α → Option (List β)
  | [] => some []
  | a :: rest =>
    match f a with
    | none => none
    | some b => (omapM f rest).map (fun bs => b :: bs)

/-- Except-valued traversal (structural `mapM` over `Except`): the first
error aborts. -/
def emapM (f : α → Except Err β) : List α → Except Err (List β)
  | [] => .ok []
  | a :: rest =>
    match f a with
    | .error e => .error e
    | .ok b =>
      match emapM f rest with
      | .error e => .error e
      | .ok bs => .ok (b :: bs)

/-! ### BVH channel types (`io/bvh/types.py`) -/

inductive Channel where
  | Xposition
  | Yposition
  | Zposition
  | Xrotation
  | Yrotation
  | Zrotation
deriving DecidableEq, Repr

def Channel.isPosition : Channel → Bool
  | .Xposition => true
  | .Yposition => true
  | .Zposition => true
  | _ => false

def Channel.isRotation : Channel → Bool
  | .Xrotation => true
  | .Yrotation => true
  | .Zrotation => true
  | _ => false

inductive RotOrder where
  | XYZ
  | XZY
  | YXZ
  | YZX
  | ZXY
  | ZYX
deriving DecidableEq, Repr

/-- `rotation_channels_from_order` (the `_ROTATION_CHANNELS_BY_ORDER` table). -/
def rotationChannelsFromOrder : RotOrder → List Channel
  | .XYZ => [.Xrotation, .Yrotation, .Zrotation]
  | .XZY => [.Xrotation, .Zrotation, .Yrotation]
  | .YXZ => [.Yrotation, .Xrotation, .Zrotation]
  | .YZX => [.Yrotation, .Zrotation, .Xrotation]
  | .ZXY => [.Zrotation, .Xrotation, .Yrotation]
  | .ZYX => [.Zrotation, .Yrotation, .Xrotation]

/-- `rotation_order_from_channels` (raises `ValueError` off the table). -/
def rotationOrderFromChannels (chs : List Channel) : Except Err RotOrder :=
  if chs = [.Xrotation, .Yrotation, .Zrotation] then .ok .XYZ
  else if chs = [.Xrotation, .Zrotation, .Yrotation] then .ok .XZY
  else if chs = [.Yrotation, .Xrotation, .Zrotation] then .ok .YXZ
  else if chs = [.Yrotation, .Zrotation, .Xrotation] then .ok .YZX
  else if chs = [.Zrotation, .Xrotation, .Yrotation] then .ok .ZXY
  else if chs = [.Zrotation, .Yrotation, .Xrotation] then .ok .ZYX
  else .error .valueError

/-- `validate_channel` as a partial classifier; the raised `ValueError` is
represented by `none` and mapped to an error by the caller. -/
def channelOfString (s : String) : Option Channel :=
  if s = "Xposition" then some .Xposition
  else if s = "Yposition" then some .Yposition
  else if s = "Zposition" then some .Zposition
  else if s = "Xrotation" then some .Xrotation
  else if s = "Yrotation" then some .Yrotation
  else if s = "Zrotation" then some .Zrotation
  else none

def channelString : Channel → String
  | .Xposition => "Xposition"
  | .Yposition => "Yposition"
  | .Zposition => "Zposition"
  | .Xrotation => "Xrotation"
  | .Yrotation => "Yrotation"
  | .Zrotation => "Zrotation"

/-! ### BVHChannelLayout (`io/bvh/channel_layout.py`) -/

structure BVHChannelLayout where
  position_channels : List Channel
  rotation_channels : List Channel
deriving DecidableEq, Repr

/-- `BVHChannelLayout.from_bvh_channels`. -/
def BVHChannelLayout.fromBvhChannels (chs : List Channel) : BVHChannelLayout :=
  ⟨chs.filter Channel.isPosition, chs.filter Channel.isRotation⟩

/-- `BVHChannelLayout.from_rotation_order`. -/
def BVHChannelLayout.fromRotationOrder (order : RotOrder)
    (has_position_channels : Bool) : BVHChannelLayout :=
  ⟨if has_position_channels then [.Xposition, .Yposition, .Zposition] else [],
   rotationChannelsFromOrder order⟩

/-- Serialized channel order: positions then rotations. -/
def BVHChannelLayout.channels (l : BVHChannelLayout) : List Channel :=
  l.position_channels ++ l.rotation_channels

def BVHChannelLayout.channel_count (l : BVHChannelLayout) : Nat :=
  l.channels.length

def BVHChannelLayout.has_position_channels (l : BVHChannelLayout) : Bool :=
  !l.position_channels.isEmpty

def BVHChannelLayout.has_rotation_channels (l : BVHChannelLayout) : Bool :=
  !l.rotation_channels.isEmpty

def BVHChannelLayout.rotation_order (l : BVHChannelLayout) : Except Err RotOrder :=
  rotationOrderFromChannels l.rotation_channels

/-! ### Quaternions (the external rotation capability)

`scipy.spatial.transform.Rotation` is an external capability per the spec
(§1, §6): build a rotation from Euler angles in a given intrinsic axis order
(degrees), compose rotations, rotate vectors, and read the quaternion out in
`xyzw` scalar-last order.  Embedded as exact real quaternions. -/

structure Quat where
  x : ℝ
  y : ℝ
  z : ℝ
  w : ℝ

/-- The identity rotation `R.identity()`. -/
def Quat.one : Quat := ⟨0, 0, 0, 1⟩

/-- Hamilton product; `q1 * q2` composes rotations applying `q2` first, which
is scipy's composition convention. -/
def quatMul (a b : Quat) : Quat :=
  ⟨a.w * b.x + b.w * a.x + (a.y * b.z - a.z * b.y),
   a.w * b.y + b.w * a.y + (a.z * b.x - a.x * b.z),
   a.w * b.z + b.w * a.z + (a.x * b.y - a.y * b.x),
   a.w * b.w - (a.x * b.x + a.y * b.y + a.z * b.z)⟩

inductive RAxis where
  | X
  | Y
  | Z
deriving DecidableEq, Repr

def Channel.rotAxis : Channel → Option RAxis
  | .Xrotation => some .X
  | .Yrotation => some .Y
  | .Zrotation => some .Z
  | _ => none

/-- Unit quaternion for a single-axis rotation of `θ` degrees. -/
noncomputable def axisQuatDeg : RAxis → ℝ → Quat
  | .X, θ => ⟨Real.sin (θ * Real.pi / 360), 0, 0, Real.cos (θ * Real.pi / 360)⟩
  | .Y, θ => ⟨0, Real.sin (θ * Real.pi / 360), 0, Real.cos (θ * Real.pi / 360)⟩
  | .Z, θ => ⟨0, 0, Real.sin (θ * Real.pi / 360), Real.cos (θ * Real.pi / 360)⟩

/-- `R.from_euler(order, values, degrees=True)` for an intrinsic axis
sequence: the first declared axis is the outermost factor. -/
noncomputable def fromEuler (axes : List RAxis) (vals : List ℝ) : Quat :=
  (axes.zip vals).foldl (fun q av => quatMul q (axisQuatDeg av.1 av.2)) Quat.one

/-- `Rotation.as_quat()`: scalar-last `xyzw` components. -/
def Quat.toRow (q : Quat) : List ℝ := [q.x, q.y, q.z, q.w]

/-! ### Tokenization and number parsing -/

def isSpaceChar (c : Char) : Bool := c == ' ' || c == '\t' || c == '\r'

def splitCharList (sep : Char → Bool) : List Char → List (List Char)
  | [] => [[]]
  | c :: rest =>
    match splitCharList sep rest with
    | [] => [[]]
    | cur :: done => if sep c then [] :: cur :: done else (c :: cur) :: done

/-- `str.strip()`. -/
def stripChars (l : List Char) : List Char :=
  ((l.dropWhile isSpaceChar).reverse.dropWhile isSpaceChar).reverse

/-- `str.split()` with no argument: split on whitespace runs, no empties. -/
def tokenize (s : String) : List String :=
  ((splitCharList isSpaceChar s.data).map String.mk).filter (fun t => t ≠ "")

def splitLinesStr (s : String) : List String :=
  (splitCharList (fun c => c == '\n') s.data).map String.mk

def digitVal (c : Char) : Option Nat :=
  if c.isDigit then some (c.toNat - 48) else none

/-- Parse a nonempty all-digit run. -/
def parseNatChars : List Char → Option Nat
  | [] => none
  | cs =>
    cs.foldl
      (fun acc c =>
        match acc, digitVal c with
        | some n, some d => some (n * 10 + d)
        | _, _ => none)
      (some 0)

/-- Python `int(token)`. -/
def parseIntChars : List Char → Option Int
  | '-' :: rest => (parseNatChars rest).map (fun n => -(n : Int))
  | '+' :: rest => (parseNatChars rest).map (fun n => (n : Int))
  | cs => (parseNatChars cs).map (fun n => (n : Int))

def parseIntStr (s : String) : Option Int := parseIntChars s.data

/-- Digit run value with empty allowed (contributes zero digits). -/
def parseNatCharsD (cs : List Char) : Option Nat :=
  cs.foldl
    (fun acc c =>
      match acc, digitVal c with
      | some n, some d => some (n * 10 + d)
      | _, _ => none)
    (some 0)

/-- Mantissa of a decimal literal: digit value with the decimal point
removed, the fraction length, and the unconsumed tail. -/
def parseMantissa (cs : List Char) : Option (Nat × Nat × List Char) :=
  let intPart := cs.takeWhile Char.isDigit
  let rest := cs.dropWhile Char.isDigit
  match rest with
  | '.' :: rest2 =>
    let fracPart := rest2.takeWhile Char.isDigit
    let rest3 := rest2.dropWhile Char.isDigit
    if intPart.isEmpty && fracPart.isEmpty then none
    else
      match parseNatCharsD intPart, parseNatCharsD fracPart with
      | some i, some f => some (i * 10 ^ fracPart.length + f, fracPart.length, rest3)
      | _, _ => none
  | _ =>
    if intPart.isEmpty then none
    else (parseNatCharsD intPart).map (fun i => (i, 0, rest))

def parseExponent : List Char → Option Int
  | [] => some 0
  | 'e' :: rest => parseIntChars rest
  | 'E' :: rest => parseIntChars rest
  | _ => none

/-- Exact value of `±mant · 10^(e - fracLen)` as a rational. -/
def decValue (negative : Bool) (mant : Nat) (fracLen : Nat) (e : Int) : ℚ :=
  let num : Int := if negative then -(mant : Int) else (mant : Int)
  match e with
  | .ofNat k => Rat.divInt (num * (10 : Int) ^ k) ((10 : Int) ^ fracLen)
  | .negSucc k => Rat.divInt num ((10 : Int) ^ (fracLen + (k + 1)))

/-- Python `float(token)` on the decimal/scientific literals BVH files carry,
as an exact rational. -/
def parseFloatStr (s : String) : Option ℚ :=
  let signAndDigits : Bool × List Char :=
    match s.data with
    | '-' :: rest => (true, rest)
    | '+' :: rest => (false, rest)
    | cs => (false, cs)
  match parseMantissa signAndDigits.2 with
  | none => none
  | some (m, k, rest) =>
    (parseExponent rest).map (decValue signAndDigits.1 m k)

/-! ### MotionData (`mocap_converter/motion_data.py`) -/

structure MotionData where
  kinematic_tree : KinematicTree
  positions : List (String × List (List ℝ))
  rotations : List (String × List (List ℝ))
  frame_time : ℚ
  frame_count : Nat

/-- `_freeze_array`: the array must be two-dimensional with `shape_second`
columns, else `ValueError`.  (Row lists model `(N, k)` float arrays; the
write-protection flag has no observable effect in a pure embedding.) -/
def freezeArray (a : List (List ℝ)) (shape_second : Nat) :
    Except Err (List (List ℝ)) :=
  if a.all (fun row => decide (row.length = shape_second)) then .ok a
  else .error .valueError

/-- `_freeze_mapping`. -/
def freezeMapping : List (String × List (List ℝ)) → Nat →
    Except Err (List (String × List (List ℝ)))
  | [], _ => .ok []
  | p :: rest, shape_second =>
    match freezeArray p.2 shape_second with
    | .error e => .error e
    | .ok a =>
      match freezeMapping rest shape_second with
      | .error e => .error e
      | .ok out => .ok ((p.1, a) :: out)

/-- `_validate_mapping_nodes`: every key must name a node of the tree
(`KeyError` otherwise); returns `dict(data)`. -/
def validateMappingNodes (tree : KinematicTree)
    (data : List (String × List (List ℝ))) :
    Except Err (List (String × List (List ℝ))) :=
  if data.all (fun p => decide (p.1 ∈ dkeys tree.nodes)) then .ok (dictOf data)
  else .error .keyError

/-- Row count of the first array of a map (zero when the map is empty). -/
def firstFrameCount (pos : List (String × List (List ℝ))) : Nat :=
  match pos with
  | [] => 0
  | (_, first) :: _ => first.length

/-- `_infer_and_validate_frame_count`: positions are the primary source when
present; note the fallback re-infers from rotations whenever the
position-derived count is zero. -/
def inferAndValidateFrameCount (pos rot : List (String × List (List ℝ))) :
    Except Err Nat :=
  if pos.all (fun p => decide (p.2.length = firstFrameCount pos)) then
    match rot with
    | [] => .ok (firstFrameCount pos)
    | (_, firstR) :: _ =>
      if rot.all (fun p => decide (p.2.length =
          (if firstFrameCount pos = 0 then firstR.length
           else firstFrameCount pos))) then
        .ok (if firstFrameCount pos = 0 then firstR.length
             else firstFrameCount pos)
      else .error .valueError
  else .error .valueError

/-- `MotionData.__init__`. -/
def MotionData.make (tree : KinematicTree)
    (positions rotations : List (String × List (List ℝ))) (frame_time : ℚ) :
    Except Err MotionData := do
  let vp ← validateMappingNodes tree positions
  let vr ← validateMappingNodes tree rotations
  let pm ← freezeMapping vp 3
  let rm ← freezeMapping vr 4
  let fc ← inferAndValidateFrameCount pm rm
  .ok ⟨tree, pm, rm, frame_time, fc⟩

/-- `MotionData.copy_with`. -/
def MotionData.copyWith (md : MotionData)
    (positions rotations : Option (List (String × List (List ℝ))))
    (frame_time : Option ℚ) : Except Err MotionData :=
  if positions.isNone ∧ rotations.isNone ∧ frame_time.isNone then .ok md
  else
    (match positions with
     | none => Except.ok md.positions
     | some ps =>
       validateMappingNodes md.kinematic_tree ps >>= fun v =>
       freezeMapping v 3) >>= fun newPos =>
    (match rotations with
     | none => Except.ok md.rotations
     | some rs =>
       validateMappingNodes md.kinematic_tree rs >>= fun v =>
       freezeMapping v 4) >>= fun newRot =>
    inferAndValidateFrameCount newPos newRot >>= fun _ =>
    MotionData.make md.kinematic_tree newPos newRot
      (match frame_time with | none => md.frame_time | some t => t)

def MotionData.has_positions (md : MotionData) (name : String) : Bool :=
  decide (name ∈ dkeys md.positions)

def MotionData.has_rotations (md : MotionData) (name : String) : Bool :=
  decide (name ∈ dkeys md.rotations)

/-! ### Forward kinematics (`rot2pos.py`) -/

/-- Quaternion conjugate; the inverse for unit quaternions. -/
def Quat.conj (q : Quat) : Quat := ⟨-q.x, -q.y, -q.z, q.w⟩

/-- `Rotation.apply` on one vector: the quaternion sandwich `q v q*`
(`from_quat` normalizes, so the conjugate is the inverse). -/
def rotApply (q : Quat) (v : ℝ × ℝ × ℝ) : ℝ × ℝ × ℝ :=
  let r := quatMul (quatMul q ⟨v.1, v.2.1, v.2.2, 0⟩) q.conj
  (r.x, r.y, r.z)

/-- `R.from_quat` on one stored `xyzw` row (scipy normalizes). -/
noncomputable def fromQuatRow (row : List ℝ) : Quat :=
  let x := row.getD 0 0
  let y := row.getD 1 0
  let z := row.getD 2 0
  let w := row.getD 3 0
  let n := Real.sqrt (x ^ 2 + y ^ 2 + z ^ 2 + w ^ 2)
  ⟨x / n, y / n, z / n, w / n⟩

/-- Per-frame composed orientation `accum_rot * R.from_quat(rot_np)`. -/
noncomputable def frameRot (accum : List Quat) (rows : List (List ℝ)) :
    List Quat :=
  (accum.zip rows).map (fun p => quatMul p.1 (fromQuatRow p.2))

def v3add (a b : ℝ × ℝ × ℝ) : ℝ × ℝ × ℝ :=
  (a.1 + b.1, a.2.1 + b.2.1, a.2.2 + b.2.2)

def v3smul (s : ℝ) (a : ℝ × ℝ × ℝ) : ℝ × ℝ × ℝ :=
  (s * a.1, s * a.2.1, s * a.2.2)

/-- A stored rest offset as a real 3-vector. -/
def v3ofOffset (off : List ℚ) : ℝ × ℝ × ℝ :=
  (((off.getD 0 0 : ℚ) : ℝ), ((off.getD 1 0 : ℚ) : ℝ), ((off.getD 2 0 : ℚ) : ℝ))

/-- Per-frame child world position
`parent_position + rotation.apply(offset) * scale`. -/
noncomputable def childWorld (parentPos : List (ℝ × ℝ × ℝ)) (rots : List Quat)
    (off : List ℚ) (scale : ℝ) : List (ℝ × ℝ × ℝ) :=
  (parentPos.zip rots).map
    (fun p => v3add p.1 (v3smul scale (rotApply p.2 (v3ofOffset off))))

/-- Python `dict.update`: insert every binding of `r` into `a` in order. -/
def dupdate (a r : List (String × α)) : List (String × α) :=
  r.foldl (fun acc p => dinsert acc p.1 p.2) a

/-- Fuel-indexed `get_positions_from_rotations`.  A node without a stored
rotation stream returns the empty dict; otherwise the node is recorded at the
passed parent position and every child (the single-child and multi-child
branches of the source run the same loop body) is inserted at
`parent_position + rotation.apply(offset) * scale` before recursing into it
with the composed orientation; the recursion depth is bounded by the longest
parent chain, so the wrapper's fuel `len + 1` is never exhausted on a
validated tree (`none` models the source diverging on a cyclic tree). -/
noncomputable def gpfrAux (md : MotionData) (scale : ℝ) :
    Nat → List (ℝ × ℝ × ℝ) → String → List Quat →
    Option (List (String × List (ℝ × ℝ × ℝ)))
  | 0, _, _, _ => none
  | fuel + 1, parentPos, name, accum =>
    match dlook md.rotations name with
    | none => some []
    | some rows =>
      let rotation := frameRot accum rows
      (md.kinematic_tree.get_children name).foldl
        (fun acc c =>
          match acc with
          | none => none
          | some a =>
            let cpos := childWorld parentPos rotation c.offset scale
            (gpfrAux md scale fuel cpos c.name rotation).map
              (fun r => dupdate (dinsert a c.name cpos) r))
        (some [(name, parentPos)])

/-- `get_positions_from_rotations` with the depth bound instantiated. -/
noncomputable def getPositionsFromRotations (md : MotionData)
    (parentPos : List (ℝ × ℝ × ℝ)) (name : String) (accum : List Quat)
    (scale : ℝ) : Option (List (String × List (ℝ × ℝ × ℝ))) :=
  gpfrAux md scale (md.kinematic_tree.len + 1) parentPos name accum

/-! ### BVH saver (`io/bvh/saver.py`), formatting and Euler extraction -/

/-- Decimal digits of a natural number (fuel-structural; `fuel = n + 1`
always suffices). -/
def natStrAux : Nat → Nat → List Char
  | 0, _ => []
  | fuel + 1, n =>
    if n < 10 then [Char.ofNat (48 + n)]
    else natStrAux fuel (n / 10) ++ [Char.ofNat (48 + n % 10)]

def natStr (n : Nat) : String := String.mk (natStrAux (n + 1) n)

def padZeros (w : Nat) (s : List Char) : List Char :=
  List.replicate (w - s.length) '0' ++ s

/-- Round `a / b` (with `b > 0`) to the nearest integer, ties to even —
the rounding of Python float formatting on exactly-represented values. -/
def rndHalfEven (a b : Int) : Int :=
  let t := Int.fdiv a b
  let r := a - t * b
  if 2 * r < b then t
  else if 2 * r > b then t + 1
  else if t % 2 = 0 then t else t + 1

/-- Python `%.6f` fixed-point formatting of an exact rational. -/
def fmtF6 (q : ℚ) : String :=
  let n := (rndHalfEven ((q.num.natAbs : Int) * 1000000) (q.den : Int)).toNat
  String.mk ((if q.num < 0 then ['-'] else []) ++
    natStrAux (n / 1000000 + 1) (n / 1000000) ++ ['.'] ++
    padZeros 6 (natStrAux (n % 1000000 + 1) (n % 1000000)))

/-- Python `" ".join`. -/
def joinSpace : List String → String
  | [] => ""
  | [s] => s
  | s :: rest => s ++ " " ++ joinSpace rest

/-- `_build_node_string`: header line (`End Site` for End nodes), brace
block with the `%.6f` OFFSET line, a CHANNELS line when the channel tuple is
nonempty (Python truthiness), indented child lines when present. -/
def buildNodeString (node_type node_name : String) (offset : List ℚ)
    (channels : List Channel) (children : List String) (indent : String) :
    List String :=
  (if node_type = "End" then ["End Site"]
   else [node_type ++ " " ++ node_name]) ++
  ["\x7b"] ++
  [indent ++ "OFFSET " ++ fmtF6 (offset.getD 0 0) ++ " " ++
    fmtF6 (offset.getD 1 0) ++ " " ++ fmtF6 (offset.getD 2 0)] ++
  (if channels.isEmpty then [] else
    [indent ++ "CHANNELS " ++ natStr channels.length ++ " " ++
      joinSpace (channels.map channelString)]) ++
  (if children.isEmpty then [] else children.map (fun l => indent ++ l)) ++
  ["\x7d"]

/-- `_get_channel_layout_for_node`: explicit layout if given, else the
default — three ZXY rotation channels, position channels only on the root. -/
def getChannelLayoutForNode (tree : KinematicTree) (node_name : String)
    (channel_layouts : List (String × BVHChannelLayout)) :
    Except Err BVHChannelLayout :=
  match tree.get_node node_name with
  | .error e => .error e
  | .ok node =>
    match dlook channel_layouts node.name with
    | some l => .ok l
    | none => .ok (BVHChannelLayout.fromRotationOrder .ZXY node.is_root)

/-- `_build_nodes_recursive` (fuel-structural; the wrapper instantiates the
fuel with `len + 1`, enough for every validated tree; the fuel-out error
models the source diverging on a cyclic node dict).  Returns the block lines
and the node order extended with every emitted node that owns motion
columns: children-bearing nodes, a childless root, and a sibling-bearing
leaf (as a JOINT wrapping a zero-offset End Site); a leaf without siblings
becomes a bare End Site and is not appended. -/
def buildNodesRec (tree : KinematicTree)
    (channel_layouts : List (String × BVHChannelLayout)) :
    Nat → String → List String → Except Err (List String × List String)
  | 0, _, _ => .error .circularReferenceError
  | fuel + 1, node_name, node_order =>
    match tree.get_node node_name with
    | .error e => .error e
    | .ok node =>
      match getChannelLayoutForNode tree node_name channel_layouts with
      | .error e => .error e
      | .ok channel_layout =>
        let children := tree.get_children node_name
        if children.isEmpty = false then
          match children.foldl
              (fun acc c =>
                match acc with
                | Except.error e => Except.error e
                | Except.ok p =>
                  match buildNodesRec tree channel_layouts fuel c.name p.2 with
                  | Except.error e => Except.error e
                  | Except.ok q => Except.ok (p.1 ++ q.1, q.2))
              (Except.ok ([], node_order ++ [node.name])) with
          | .error e => .error e
          | .ok p =>
            .ok (buildNodeString (if node.is_root then "ROOT" else "JOINT")
              node.name node.offset channel_layout.channels p.1 "  ", p.2)
        else if node.is_root then
          .ok (buildNodeString "ROOT" node.name node.offset
            channel_layout.channels [] "  ", node_order ++ [node.name])
        else
          match tree.has_siblings node_name with
          | .error e => .error e
          | .ok true =>
            .ok (buildNodeString "JOINT" node.name node.offset
              channel_layout.channels
              (buildNodeString "End" node.name zeroOffset [] [] "  ") "  ",
              node_order ++ [node.name])
          | .ok false =>
            .ok (buildNodeString "End" node.name node.offset [] [] "  ",
              node_order)

/-- `_build_hierarchy_string`: `ValueError` when the tree has no root. -/
def buildHierarchyLines (tree : KinematicTree)
    (channel_layouts : List (String × BVHChannelLayout)) :
    Except Err (List String × List String) :=
  match tree.root with
  | none => .error .valueError
  | some root =>
    match buildNodesRec tree channel_layouts (tree.len + 1) root.name [] with
    | .error e => .error e
    | .ok p => .ok ("HIERARCHY" :: p.1, p.2)

/-- `_build_motion_info_string` as lines. -/
def buildMotionInfoLines (md : MotionData) : List String :=
  ["MOTION", "Frames: " ++ natStr md.frame_count,
   "Frame Time: " ++ fmtF6 md.frame_time]

/-- scipy `atan2` via the complex argument. -/
noncomputable def atan2 (y x : ℝ) : ℝ := Complex.arg ⟨x, y⟩

/-- scipy `Rotation.as_euler` on one unit quaternion, per intrinsic
Tait-Bryan order, in radians: the middle angle from one rotation-matrix
element by arcsine, the outer angles by `atan2` of matrix elements. -/
noncomputable def asEulerRadRow (order : RotOrder) (q : Quat) : List ℝ :=
  match order with
  | .XYZ =>
    [atan2 (-(2 * (q.y * q.z - q.x * q.w))) (1 - 2 * (q.x ^ 2 + q.y ^ 2)),
     Real.arcsin (2 * (q.x * q.z + q.y * q.w)),
     atan2 (-(2 * (q.x * q.y - q.z * q.w))) (1 - 2 * (q.y ^ 2 + q.z ^ 2))]
  | .XZY =>
    [atan2 (2 * (q.y * q.z + q.x * q.w)) (1 - 2 * (q.x ^ 2 + q.z ^ 2)),
     Real.arcsin (-(2 * (q.x * q.y - q.z * q.w))),
     atan2 (2 * (q.x * q.z + q.y * q.w)) (1 - 2 * (q.y ^ 2 + q.z ^ 2))]
  | .YXZ =>
    [atan2 (2 * (q.x * q.z + q.y * q.w)) (1 - 2 * (q.x ^ 2 + q.y ^ 2)),
     Real.arcsin (-(2 * (q.y * q.z - q.x * q.w))),
     atan2 (2 * (q.x * q.y + q.z * q.w)) (1 - 2 * (q.x ^ 2 + q.z ^ 2))]
  | .YZX =>
    [atan2 (-(2 * (q.x * q.z - q.y * q.w))) (1 - 2 * (q.y ^ 2 + q.z ^ 2)),
     Real.arcsin (2 * (q.x * q.y + q.z * q.w)),
     atan2 (-(2 * (q.y * q.z - q.x * q.w))) (1 - 2 * (q.x ^ 2 + q.z ^ 2))]
  | .ZXY =>
    [atan2 (-(2 * (q.x * q.y - q.z * q.w))) (1 - 2 * (q.x ^ 2 + q.z ^ 2)),
     Real.arcsin (2 * (q.y * q.z + q.x * q.w)),
     atan2 (-(2 * (q.x * q.z - q.y * q.w))) (1 - 2 * (q.x ^ 2 + q.y ^ 2))]
  | .ZYX =>
    [atan2 (2 * (q.x * q.y + q.z * q.w)) (1 - 2 * (q.y ^ 2 + q.z ^ 2)),
     Real.arcsin (-(2 * (q.x * q.z - q.y * q.w))),
     atan2 (2 * (q.y * q.z + q.x * q.w)) (1 - 2 * (q.x ^ 2 + q.y ^ 2))]

/-- One stored quaternion row to Euler angles in degrees
(`R.from_quat(...).as_euler(order, degrees=True)`). -/
noncomputable def asEulerDegRow (order : RotOrder) (row : List ℝ) : List ℝ :=
  (asEulerRadRow order (fromQuatRow row)).map (fun t => t * 180 / Real.pi)

/-- The per-node loop of `_extract_motion_values`: declared position or
rotation channels without matching data raise `ValueError`; the rotation
order off the canonical table raises `ValueError` (inside the
`rotation_order` property); blocks are collected positions-first. -/
noncomputable def extractBlocks (md : MotionData)
    (channel_layouts : List (String × BVHChannelLayout)) :
    List String → Except Err (List (List (List ℝ)))
  | [] => .ok []
  | name :: rest =>
    match getChannelLayoutForNode md.kinematic_tree name channel_layouts with
    | .error e => .error e
    | .ok layout =>
      if layout.has_position_channels && !(md.has_positions name) then
        .error .valueError
      else if layout.has_rotation_channels && !(md.has_rotations name) then
        .error .valueError
      else
        match (if layout.has_rotation_channels then
            (rotationOrderFromChannels layout.rotation_channels).map
              (fun o => [((dlook md.rotations name).getD []).map
                (asEulerDegRow o)])
          else .ok []) with
        | .error e => .error e
        | .ok rotBlocks =>
          match extractBlocks md channel_layouts rest with
          | .error e => .error e
          | .ok more =>
            .ok ((if layout.has_position_channels then
                [(dlook md.positions name).getD []] else []) ++
              rotBlocks ++ more)

/-- `np.concatenate(axis=1)` over the per-node blocks. -/
def rowConcat : List (List (List ℝ)) → List (List ℝ)
  | [] => []
  | b :: rest => rest.foldl (fun acc b2 => List.zipWith (fun r s => r ++ s) acc b2) b

/-- `save_bvh` up to the `np.savetxt` call: header lines and the motion
value matrix, or the raised exception. -/
noncomputable def saveCore (md : MotionData)
    (channel_layouts : List (String × BVHChannelLayout)) :
    Except Err (List String × List (List ℝ)) :=
  match buildHierarchyLines md.kinematic_tree channel_layouts with
  | .error e => .error e
  | .ok p =>
    match extractBlocks md channel_layouts p.2 with
    | .error e => .error e
    | .ok blocks =>
      if blocks.isEmpty then .error .valueError
      else .ok (p.1 ++ buildMotionInfoLines md, rowConcat blocks)

/-- Powers of ten. -/
def pow10 (n : Nat) : Nat := 10 ^ n

/-- Python / `np.savetxt` `%.18e` scientific formatting of an exact
rational: one leading digit, eighteen fractional digits, a signed
two-or-more digit exponent; ties round to even. -/
def fmtE18 (q : ℚ) : String :=
  if q.num = 0 then "0.000000000000000000e+00"
  else
    let a := q.num.natAbs
    let b := q.den
    let e0 : Int := ((natStrAux (a + 1) a).length : Int) -
      ((natStrAux (b + 1) b).length : Int)
    let ge : Bool :=
      if 0 ≤ e0 then decide (b * pow10 e0.toNat ≤ a)
      else decide (b ≤ a * pow10 (-e0).toNat)
    let e : Int := if ge then e0 else e0 - 1
    let m :=
      (if e ≤ 18 then rndHalfEven ((a : Int) * (pow10 (18 - e).toNat : Int)) (b : Int)
       else rndHalfEven (a : Int) ((b : Int) * (pow10 (e - 18).toNat : Int))).toNat
    let m2 := if m = pow10 19 then pow10 18 else m
    let e2 := if m = pow10 19 then e + 1 else e
    String.mk ((if q.num < 0 then ['-'] else []) ++
      natStrAux (m2 / pow10 18 + 1) (m2 / pow10 18) ++ ['.'] ++
      padZeros 18 (natStrAux (m2 % pow10 18 + 1) (m2 % pow10 18)) ++ ['e'] ++
      (if e2 < 0 then ['-'] else ['+']) ++
      padZeros 2 (natStrAux (e2.natAbs + 1) e2.natAbs))

/-- `%.18e` on a stored real: every value the pipeline stores is the cast
of an exact rational, recovered here by choice; `fmtR_cast` evaluates it. -/
noncomputable def fmtR (x : ℝ) : String :=
  have : Decidable (∃ q : ℚ, (q : ℝ) = x) := Classical.dec _
  if h : ∃ q : ℚ, (q : ℝ) = x then fmtE18 (Classical.choose h) else "nan"

def joinNl : List String → String
  | [] => ""
  | [s] => s
  | s :: rest => s ++ "\n" ++ joinNl rest

/-- `np.savetxt(filename, values, delimiter=" ", header=..., comments="")`:
the header followed by one `%.18e` space-separated line per row. -/
noncomputable def savetxtText (header : List String) (rows : List (List ℝ)) :
    String :=
  joinNl header ++ "\n" ++
    String.join (rows.map (fun r => joinSpace (r.map fmtR) ++ "\n"))

/-- A consistent BVH whose motion rows are all zero (identity rotations). -/
def zeroBvhText : String :=
  "HIERARCHY\nROOT Root\n\x7b\n  OFFSET 0 0 0\n  CHANNELS 6 Xposition Yposition Zposition Zrotation Xrotation Yrotation\n  JOINT A\n  \x7b\n    OFFSET 1 0 0\n    CHANNELS 3 Zrotation Xrotation Yrotation\n    JOINT B\n    \x7b\n      OFFSET 0 1 0\n      CHANNELS 3 Zrotation Xrotation Yrotation\n      End Site\n      \x7b\n        OFFSET 0 0 1\n      \x7d\n    \x7d\n  \x7d\n\x7d\nMOTION\nFrames: 1\nFrame Time: 0.033333\n0 0 0 0 0 0 0 0 0 0 0 0\n"

/-- A consistent, loadable BVH whose only channels are root positions. -/
def posOnlyBvhText : String :=
  "HIERARCHY\nROOT Root\n\x7b\n  OFFSET 0 0 0\n  CHANNELS 3 Xposition Yposition Zposition\n\x7d\nMOTION\nFrames: 1\nFrame Time: 0.033333\n1.0 2.0 3.0\n"

/-- A root with two sibling leaves (both leaves have siblings). -/
def siblingLeafTree : KinematicTree :=
  ⟨[("R", ⟨"R", none, [0, 0, 0]⟩), ("A", ⟨"A", some "R", [1, 0, 0]⟩),
    ("B", ⟨"B", some "R", [0, 1, 0]⟩)]⟩

/-- A three-node chain whose deepest node is a leaf without siblings. -/
def chainLeafTree : KinematicTree :=
  ⟨[("R", ⟨"R", none, [0, 0, 0]⟩), ("A", ⟨"A", some "R", [1, 0, 0]⟩),
    ("B", ⟨"B", some "A", [0, 0, 1]⟩)]⟩

/-! ### BVH loader (`io/bvh/loader.py`) -/

structure BVHSections where
  hierarchy_lines : List String
  motion_lines : List String
deriving DecidableEq, Repr

structure ParsedHierarchy where
  kinematic_tree : KinematicTree
  node_channels : List (String × BVHChannelLayout)
deriving DecidableEq, Repr

structure ParsedMotion where
  hierarchy : ParsedHierarchy
  frame_count : Int
  frame_time : ℚ
  frames : List (List ℚ)
deriving DecidableEq, Repr

/-- `split_into_sections`: strip lines, drop blanks, split at the first
`MOTION` line. -/
def splitIntoSections (content : String) : Except Err BVHSections :=
  let lines := ((splitLinesStr content).map
      (fun l => String.mk (stripChars l.data))).filter (fun l => l ≠ "")
  match lines.findIdx? (fun l => l = "MOTION") with
  | none => .error .parseError
  | some i => .ok ⟨lines.take i, lines.drop i⟩

/-- `_parse_node_line`; reading the missing name token raises `IndexError`. -/
def parseNodeLine (current : Option String) (tokens : List String) :
    Except Err Node :=
  match tokens with
  | [] => .error .indexError
  | [_] => .error .indexError
  | node_type :: node_name :: _ =>
    if node_type = "ROOT" ∧ current ≠ none then .error .parseError
    else if node_type = "JOINT" ∧ current = none then .error .parseError
    else if node_type = "End" then
      match current with
      | none => .error .parseError
      | some cur =>
        if node_name ≠ "Site" then .error .parseError
        else .ok ⟨cur ++ "_EndSite", some cur, zeroOffset⟩
    else .ok ⟨node_name, if node_type = "ROOT" then none else current, zeroOffset⟩

/-- `_parse_offset_line`: any non-float token is a `ParseError`; the token
count is not checked here (the `Node` shape check catches it later). -/
def parseOffsetLine (offset_tokens : List String) : Except Err (List ℚ) :=
  match omapM parseFloatStr offset_tokens with
  | some vals => .ok vals
  | none => .error .parseError

/-- `_parse_channels_line`: `IndexError`/`ValueError` inside the body are
caught and re-raised as `ParseError`; a declared count differing from the
number of names is a `ParseError`. -/
def parseChannelsLine (tokens : List String) : Except Err BVHChannelLayout :=
  match tokens.get? 1 with
  | none => .error .parseError
  | some t1 =>
    match parseIntStr t1 with
    | none => .error .parseError
    | some channel_count =>
      let channel_names := tokens.drop 2
      if (channel_names.length : Int) ≠ channel_count then .error .parseError
      else
        match omapM channelOfString channel_names with
        | none => .error .parseError
        | some chs => .ok (BVHChannelLayout.fromBvhChannels chs)

/-- Parser state of `parse_hierarchy_section`: the node list (last element
mutated by `OFFSET`), the per-node channel dict, the open-node stack and the
innermost open node. -/
structure HierState where
  nodes : List Node
  node_channels : List (String × BVHChannelLayout)
  node_stack : List String
  current : Option String
deriving DecidableEq, Repr

/-- One line of `parse_hierarchy_section`'s loop; unknown keywords fall
through with no effect. -/
def hierStep (st : HierState) (line : String) : Except Err HierState :=
  match tokenize line with
  | [] => .ok st
  | t0 :: _ =>
    if t0 = "ROOT" ∨ t0 = "JOINT" ∨ t0 = "End" then
      (parseNodeLine st.current (tokenize line)).map (fun node =>
        ⟨st.nodes ++ [node], st.node_channels, st.node_stack ++ [node.name],
          some node.name⟩)
    else if t0 = "OFFSET" then
      match st.current with
      | none => .error .parseError
      | some _ =>
        (parseOffsetLine (tokenize line).tail).bind (fun off =>
          match st.nodes.getLast? with
          | none => .error .indexError
          | some last =>
            (last.copyWithOffset off).map (fun node' =>
              ⟨st.nodes.dropLast ++ [node'], st.node_channels, st.node_stack,
                st.current⟩))
    else if t0 = "\x7d" then
      match st.node_stack with
      | [] => .error .parseError
      | _ :: _ =>
        let stack' := st.node_stack.dropLast
        .ok ⟨st.nodes, st.node_channels, stack', stack'.getLast?⟩
    else if t0 = "CHANNELS" then
      match st.current with
      | none => .error .parseError
      | some cur =>
        (parseChannelsLine (tokenize line)).map (fun layout =>
          ⟨st.nodes, dinsert st.node_channels cur layout, st.node_stack,
            st.current⟩)
    else .ok st

/-- `parse_hierarchy_section`. -/
def parseHierarchySection (sections : BVHSections) : Except Err ParsedHierarchy := do
  let st ← sections.hierarchy_lines.foldlM hierStep ⟨[], [], [], none⟩
  let tree ← fromNodes st.nodes
  pure ⟨tree, st.node_channels⟩

/-- Total declared channel count. -/
def expectedChannels (node_channels : List (String × BVHChannelLayout)) : Nat :=
  (node_channels.map (fun p => p.2.channel_count)).sum

/-- One motion data row: all tokens parsed as floats (else `ParseError`),
then the count checked against the total channel count. -/
def parseFrameRow (expected : Nat) (line : String) : Except Err (List ℚ) :=
  match omapM parseFloatStr (tokenize line) with
  | none => .error .parseError
  | some values =>
    if values.length ≠ expected then .error .parseError else .ok values

/-- `parse_motion_data`. -/
def parseMotionData (hierarchy : ParsedHierarchy) (sections : BVHSections) :
    Except Err ParsedMotion :=
  let motion_lines := sections.motion_lines.drop 1
  if motion_lines.length < 2 then .error .parseError
  else
    match tokenize (motion_lines.headD "") with
    | t0 :: t1 :: _ =>
      if t0 ≠ "Frames:" then .error .parseError
      else
        match parseIntStr t1 with
        | none => .error .parseError
        | some frame_count =>
          match tokenize ((motion_lines.drop 1).headD "") with
          | u0 :: u1 :: u2 :: _ =>
            if u0 ≠ "Frame" ∨ u1 ≠ "Time:" then .error .parseError
            else
              match parseFloatStr u2 with
              | none => .error .parseError
              | some frame_time =>
                match emapM
                    (parseFrameRow (expectedChannels hierarchy.node_channels))
                    ((motion_lines.drop 2).filter
                      (fun l => String.mk (stripChars l.data) ≠ "")) with
                | .error e => .error e
                | .ok frames =>
                  if (frames.length : Int) ≠ frame_count then .error .parseError
                  else .ok ⟨hierarchy, frame_count, frame_time, frames⟩
          | _ => .error .parseError
    | _ => .error .parseError

/-- `_parse_channel_values`: write each position channel into its axis slot
of a zero-initialized 3-vector, collect `(axis, degrees)` pairs in declared
order, and build one quaternion in that order (identity when no rotation
channels were declared). -/
def decodeStep (acc : List ℚ × List RAxis × List ℚ) (cv : Channel × ℚ) :
    List ℚ × List RAxis × List ℚ :=
  match cv.1 with
  | .Xposition => (acc.1.set 0 cv.2, acc.2.1, acc.2.2)
  | .Yposition => (acc.1.set 1 cv.2, acc.2.1, acc.2.2)
  | .Zposition => (acc.1.set 2 cv.2, acc.2.1, acc.2.2)
  | .Xrotation => (acc.1, acc.2.1 ++ [.X], acc.2.2 ++ [cv.2])
  | .Yrotation => (acc.1, acc.2.1 ++ [.Y], acc.2.2 ++ [cv.2])
  | .Zrotation => (acc.1, acc.2.1 ++ [.Z], acc.2.2 ++ [cv.2])

noncomputable def parseChannelValues (channels : List Channel) (values : List ℚ) :
    Except Err (List ℚ × Quat) :=
  if channels.length ≠ values.length then .error .parseError
  else
    let res := (channels.zip values).foldl decodeStep ([0, 0, 0], [], [])
    let rotation :=
      if res.2.1.isEmpty then Quat.one
      else fromEuler res.2.1 (res.2.2.map (fun q => (q : ℝ)))
    .ok (res.1, rotation)

/-- Offset of a node's channel block inside a motion row (cumulative channel
counts of the nodes declared before it). -/
def channelOffset : List (String × BVHChannelLayout) → String → Nat
  | [], _ => 0
  | (k, lay) :: rest, name =>
    if k = name then 0 else lay.channel_count + channelOffset rest name

/-- The slice of a motion row belonging to one node. -/
def rowSlice (layouts : List (String × BVHChannelLayout)) (row : List ℚ)
    (name : String) (lay : BVHChannelLayout) : List ℚ :=
  (row.drop (channelOffset layouts name)).take lay.channel_count

/-- `build_motion_data_efficiently`: per node (in declaration order), decode
its slice of every row; nodes with position channels contribute a
`(frames, 3)` array, nodes with rotation channels a `(frames, 4)` quaternion
array.  (The source writes into pre-sized arrays by frame index; the
embedding builds each node's row list directly, same contents.) -/
noncomputable def buildMotionData (parsed : ParsedMotion) : Except Err MotionData := do
  let layouts := parsed.hierarchy.node_channels
  let posArrays ← emapM
    (fun p =>
      (emapM (fun row =>
        (parseChannelValues p.2.channels (rowSlice layouts row p.1 p.2)).map
          (fun pr => pr.1.map (fun q => (q : ℝ)))) parsed.frames).map
        (fun rows => (p.1, rows)))
    (layouts.filter (fun p => p.2.has_position_channels))
  let rotArrays ← emapM
    (fun p =>
      (emapM (fun row =>
        (parseChannelValues p.2.channels (rowSlice layouts row p.1 p.2)).map
          (fun pr => pr.2.toRow)) parsed.frames).map
        (fun rows => (p.1, rows)))
    (layouts.filter (fun p => p.2.has_rotation_channels))
  MotionData.make parsed.hierarchy.kinematic_tree posArrays rotArrays
    parsed.frame_time

/-- `parse_bvh_content`: the full loading pipeline. -/
noncomputable def parseBvhContent (content : String) : Except Err MotionData :=
  (splitIntoSections content).bind (fun sections =>
    (parseHierarchySection sections).bind (fun hierarchy =>
      (parseMotionData hierarchy sections).bind buildMotionData))

/-! ### Specification-side reading of the per-row decode (for C1)

These definitions follow the spec's words — "for each position channel,
write the corresponding axis directly into a position-3-vector; for each
rotation channel, append to a same-length running list of (axis, degrees)
pairs using the order channels were declared" — to be compared with the
decode translated from the source. -/

/-- Last value written to one channel, or the default. -/
def lastChanD (pairs : List (Channel × ℚ)) (c : Channel) (dflt : ℚ) : ℚ :=
  ((pairs.filter (fun cv => decide (cv.1 = c))).map Prod.snd).getLastD dflt

/-- Spec-side position vector: each axis holds the value of its declared
position channel (zero when undeclared). -/
def specPosition (pairs : List (Channel × ℚ)) : List ℚ :=
  [lastChanD pairs .Xposition 0, lastChanD pairs .Yposition 0,
   lastChanD pairs .Zposition 0]

/-- Spec-side rotation order: the rotation channels' axes in declared
order. -/
def specRotAxes (channels : List Channel) : List RAxis :=
  channels.filterMap Channel.rotAxis

/-- Spec-side rotation angles: the rotation channels' values in declared
order. -/
def specRotVals (pairs : List (Channel × ℚ)) : List ℚ :=
  (pairs.filter (fun cv => cv.1.isRotation)).map Prod.snd

/-! ### Concrete example inputs -/

/-- The spec's §8 example chain with its motion rows exactly as printed
there: two rows of nine values, although Root+A+B declare 6+3+3 = 12
channels. -/
def exampleBvhTextLiteral : String :=
  "HIERARCHY\nROOT Root\n\x7b\n  OFFSET 0 0 0\n  CHANNELS 6 Xposition Yposition Zposition Zrotation Xrotation Yrotation\n  JOINT A\n  \x7b\n    OFFSET 1 0 0\n    CHANNELS 3 Zrotation Xrotation Yrotation\n    JOINT B\n    \x7b\n      OFFSET 0 1 0\n      CHANNELS 3 Zrotation Xrotation Yrotation\n      End Site\n      \x7b\n        OFFSET 0 0 1\n      \x7d\n    \x7d\n  \x7d\n\x7d\nMOTION\nFrames: 2\nFrame Time: 0.033333\n0 0 0 0 0 0 0 0 0\n0 0 0 90 0 0 0 0 0\n"

/-- The spec's §8 example chain with full-width motion rows (12 values per
frame, matching the declared channel counts). -/
def exampleBvhText : String :=
  "HIERARCHY\nROOT Root\n\x7b\n  OFFSET 0 0 0\n  CHANNELS 6 Xposition Yposition Zposition Zrotation Xrotation Yrotation\n  JOINT A\n  \x7b\n    OFFSET 1 0 0\n    CHANNELS 3 Zrotation Xrotation Yrotation\n    JOINT B\n    \x7b\n      OFFSET 0 1 0\n      CHANNELS 3 Zrotation Xrotation Yrotation\n      End Site\n      \x7b\n        OFFSET 0 0 1\n      \x7d\n    \x7d\n  \x7d\n\x7d\nMOTION\nFrames: 2\nFrame Time: 0.033333\n0 0 0 0 0 0 0 0 0 0 0 0\n0 0 0 90 0 0 0 0 0 0 0 0\n"

/-- The MotionData container invariant (spec-side, for C3): 3-column
positions, 4-column rotations, one shared frame count — with the
rotation-fallback proviso the code actually enforces. -/
def mdInvariant (md : MotionData) : Prop :=
  (∀ p ∈ md.positions, ∀ row ∈ p.2, row.length = 3) ∧
  (∀ p ∈ md.rotations, ∀ row ∈ p.2, row.length = 4) ∧
  (∀ p ∈ md.positions, ∀ q ∈ md.positions, p.2.length = q.2.length) ∧
  (∀ p ∈ md.rotations, p.2.length = md.frame_count) ∧
  (md.rotations = [] → ∀ p ∈ md.positions, p.2.length = md.frame_count) ∧
  ((∃ p ∈ md.positions, p.2.length ≠ 0) →
    ∀ p ∈ md.positions, p.2.length = md.frame_count)

/-! ### The spec example, staged -/

def exampleTree : KinematicTree :=
  ⟨[("Root", ⟨"Root", none, [0, 0, 0]⟩),
    ("A", ⟨"A", some "Root", [1, 0, 0]⟩),
    ("B", ⟨"B", some "A", [0, 1, 0]⟩),
    ("B_EndSite", ⟨"B_EndSite", some "B", [0, 0, 1]⟩)]⟩

def exampleZxyLayout : BVHChannelLayout :=
  ⟨[], [.Zrotation, .Xrotation, .Yrotation]⟩

def exampleRootLayout : BVHChannelLayout :=
  ⟨[.Xposition, .Yposition, .Zposition], [.Zrotation, .Xrotation, .Yrotation]⟩

def exampleHierarchy : ParsedHierarchy :=
  ⟨exampleTree,
   [("Root", exampleRootLayout), ("A", exampleZxyLayout), ("B", exampleZxyLayout)]⟩

def exampleParsedMotion : ParsedMotion :=
  ⟨exampleHierarchy, 2, mkRat 33333 1000000,
   [[0, 0, 0, 0, 0, 0, 0, 0, 0, 0, 0, 0],
    [0, 0, 0, 90, 0, 0, 0, 0, 0, 0, 0, 0]]⟩

/-- The MotionData the loader produces for the (full-width) spec example:
root positions are zero, the root's second-frame rotation is the 90-degree
rotation about Z, every other stored rotation is the identity quaternion. -/
noncomputable def exampleMotionData : MotionData :=
  ⟨exampleTree,
   [("Root", [[0, 0, 0], [0, 0, 0]])],
   [("Root", [Quat.one.toRow, (axisQuatDeg .Z 90).toRow]),
    ("A", [Quat.one.toRow, Quat.one.toRow]),
    ("B", [Quat.one.toRow, Quat.one.toRow])],
   mkRat 33333 1000000, 2⟩

/-- The parse of `zeroBvhText` (same hierarchy as the spec example, one
all-zero motion row). -/
def zeroParsedMotion : ParsedMotion :=
  ⟨exampleHierarchy, 1, mkRat 33333 1000000,
   [[0, 0, 0, 0, 0, 0, 0, 0, 0, 0, 0, 0]]⟩

/-- The MotionData loaded from `zeroBvhText`: zero root positions, identity
rotations everywhere. -/
noncomputable def zeroMotionData : MotionData :=
  ⟨exampleTree,
   [("Root", [[0, 0, 0]])],
   [("Root", [Quat.one.toRow]), ("A", [Quat.one.toRow]),
    ("B", [Quat.one.toRow])],
   mkRat 33333 1000000, 1⟩

/-- The header `save_bvh` emits for `zeroMotionData` with default layouts. -/
def zeroSavedHeader : List String :=
  ["HIERARCHY", "ROOT Root", "\x7b", "  OFFSET 0.000000 0.000000 0.000000",
   "  CHANNELS 6 Xposition Yposition Zposition Zrotation Xrotation Yrotation",
   "  JOINT A", "  \x7b", "    OFFSET 1.000000 0.000000 0.000000",
   "    CHANNELS 3 Zrotation Xrotation Yrotation", "    JOINT B", "    \x7b",
   "      OFFSET 0.000000 1.000000 0.000000",
   "      CHANNELS 3 Zrotation Xrotation Yrotation", "      End Site",
   "      \x7b", "        OFFSET 0.000000 0.000000 1.000000", "      \x7d",
   "    \x7d", "  \x7d", "\x7d", "MOTION", "Frames: 1",
   "Frame Time: 0.033333"]

/-- The complete file `save_bvh` writes for `zeroMotionData`. -/
def zeroSavedText : String :=
  "HIERARCHY\nROOT Root\n\x7b\n  OFFSET 0.000000 0.000000 0.000000\n  CHANNELS 6 Xposition Yposition Zposition Zrotation Xrotation Yrotation\n  JOINT A\n  \x7b\n    OFFSET 1.000000 0.000000 0.000000\n    CHANNELS 3 Zrotation Xrotation Yrotation\n    JOINT B\n    \x7b\n      OFFSET 0.000000 1.000000 0.000000\n      CHANNELS 3 Zrotation Xrotation Yrotation\n      End Site\n      \x7b\n        OFFSET 0.000000 0.000000 1.000000\n      \x7d\n    \x7d\n  \x7d\n\x7d\nMOTION\nFrames: 1\nFrame Time: 0.033333\n0.000000000000000000e+00 0.000000000000000000e+00 0.000000000000000000e+00 0.000000000000000000e+00 0.000000000000000000e+00 0.000000000000000000e+00 0.000000000000000000e+00 0.000000000000000000e+00 0.000000000000000000e+00 0.000000000000000000e+00 0.000000000000000000e+00 0.000000000000000000e+00\n"

/-! ### Supporting lemmas -/

theorem dlook_mem_dkeys {m : List (String × α)} {k : String} {v : α}
    (h : dlook m k = some v) : k ∈ dkeys m := by
  induction m with
  | nil => simp [dlook] at h
  | cons p rest ih =>
    by_cases hk : p.1 = k
    · simp [dkeys, hk]
    · simp only [dlook, hk, if_false] at h
      simp [dkeys] at ih ⊢
      right
      simpa [dkeys] using ih h

theorem length_filter_cons_lt {l vis : List String} {a : String}
    (ha : a ∈ l) (hv : a ∉ vis) :
    (l.filter (fun k => decide (k ∉ a :: vis))).length <
      (l.filter (fun k => decide (k ∉ vis))).length := by
  have hmono : ∀ (l' : List String),
      (l'.filter (fun k => decide (k ∉ a :: vis))).length ≤
        (l'.filter (fun k => decide (k ∉ vis))).length := by
    intro l'
    apply List.Sublist.length_le
    apply List.monotone_filter_right
    intro x hx
    simp only [decide_eq_true_eq] at hx ⊢
    exact fun hmem => hx (List.mem_cons_of_mem _ hmem)
  induction l with
  | nil => cases ha
  | cons b l ih =>
    rcases List.mem_cons.mp ha with rfl | hmem
    · have h1 : (decide (a ∉ a :: vis)) = false := by simp
      have h2 : (decide (a ∉ vis)) = true := by simp [hv]
      rw [List.filter_cons, List.filter_cons]
      simp only [h1, h2]
      simp only [if_neg Bool.false_ne_true, if_pos rfl, List.length_cons]
      exact Nat.lt_succ_of_le (hmono l)
    · rw [List.filter_cons, List.filter_cons]
      by_cases hpb : b ∈ a :: vis
      · have h1 : (decide (b ∉ a :: vis)) = false := by simp [hpb]
        simp only [h1, if_neg Bool.false_ne_true]
        by_cases hqb : b ∈ vis
        · have h2 : (decide (b ∉ vis)) = false := by simp [hqb]
          simp only [h2, if_neg Bool.false_ne_true]
          exact ih hmem
        · have h2 : (decide (b ∉ vis)) = true := by simp [hqb]
          simp only [h2, if_pos rfl, List.length_cons]
          exact Nat.lt_succ_of_lt (ih hmem)
      · have h1 : (decide (b ∉ a :: vis)) = true := by simp [hpb]
        have hqb : b ∉ vis := fun hx => hpb (List.mem_cons_of_mem _ hx)
        have h2 : (decide (b ∉ vis)) = true := by simp [hqb]
        simp only [h1, h2, if_pos rfl, List.length_cons]
        exact Nat.succ_lt_succ (ih hmem)

theorem unvisitedCount_cons_lt {m : List (String × Node)} {visited : List String}
    {a : String} (ha : a ∈ dkeys m) (hv : a ∉ visited) :
    unvisitedCount m (a :: visited) < unvisitedCount m visited :=
  length_filter_cons_lt ha hv

theorem checkPathToRootAux_irrel {m : List (String × Node)} :
    ∀ f₁ f₂ name path visited,
      unvisitedCount m visited < f₁ → unvisitedCount m visited < f₂ →
      checkPathToRootAux m f₁ name path visited =
        checkPathToRootAux m f₂ name path visited := by
  intro f₁
  induction f₁ with
  | zero => intro f₂ name path visited h1 h2; omega
  | succ a ih =>
    intro f₂ name path visited h1 h2
    match f₂ with
    | 0 => omega
    | b + 1 =>
      show checkPathToRootAux m (a + 1) name path visited =
        checkPathToRootAux m (b + 1) name path visited
      rw [checkPathToRootAux, checkPathToRootAux]
      by_cases hp : name ∈ path
      · simp [hp]
      · simp only [if_neg hp]
        by_cases hv : name ∈ visited
        · simp [hv]
        · simp only [if_neg hv]
          cases hlook : dlook m name with
          | none => rfl
          | some node =>
            dsimp only
            cases hpar : node.parent_name with
            | none => rfl
            | some p =>
              dsimp only
              by_cases hkeys : p ∈ dkeys m
              · simp only [if_pos hkeys]
                have hlt := unvisitedCount_cons_lt (dlook_mem_dkeys hlook) hv
                exact ih b p (name :: path) (name :: visited)
                  (by omega) (by omega)
              · simp [hkeys]

/-- The bounded walk satisfies the source's recursion equation verbatim: the
fuel bound is never exhausted. -/
theorem checkPathToRoot_eq (m : List (String × Node)) (node_name : String)
    (path : List String) (visited : List String) :
    checkPathToRoot m node_name path visited =
      if node_name ∈ path then .error .circularReferenceError
      else if node_name ∈ visited then .ok visited
      else
        match dlook m node_name with
        | none => .error .notConnectedError
        | some node =>
          match node.parent_name with
          | none => .ok (node_name :: visited)
          | some p =>
            if p ∈ dkeys m then
              checkPathToRoot m p (node_name :: path) (node_name :: visited)
            else .error .notConnectedError := by
  rw [checkPathToRoot, checkPathToRootAux]
  by_cases hp : node_name ∈ path
  · simp [hp]
  · simp only [if_neg hp]
    by_cases hv : node_name ∈ visited
    · simp [hv]
    · simp only [if_neg hv]
      cases hlook : dlook m node_name with
      | none => rfl
      | some node =>
        dsimp only
        cases hpar : node.parent_name with
        | none => rfl
        | some p =>
          dsimp only
          by_cases hkeys : p ∈ dkeys m
          · simp only [if_pos hkeys]
            rw [checkPathToRoot]
            have hlt := unvisitedCount_cons_lt (dlook_mem_dkeys hlook) hv
            exact checkPathToRootAux_irrel _ _ p (node_name :: path)
              (node_name :: visited) (by omega) (by omega)
          · simp [hkeys]



theorem mem_of_dlook {m : List (String × α)} {k : String} {v : α}
    (h : dlook m k = some v) : (k, v) ∈ m := by
  induction m with
  | nil => simp [dlook] at h
  | cons p rest ih =>
    obtain ⟨k', v'⟩ := p
    rw [dlook] at h
    by_cases hk : k' = k
    · rw [if_pos hk] at h
      injection h with hv
      subst hk
      subst hv
      exact List.mem_cons_self _ _
    · rw [if_neg hk] at h
      exact List.mem_cons_of_mem _ (ih h)

theorem dlook_of_mem_keys {m : List (String × α)} {k : String}
    (h : k ∈ dkeys m) : ∃ v, dlook m k = some v := by
  induction m with
  | nil => simp [dkeys] at h
  | cons p rest ih =>
    obtain ⟨k', v'⟩ := p
    by_cases hk : k' = k
    · exact ⟨v', by rw [dlook, if_pos hk]⟩
    · have hmem : k ∈ dkeys rest := by
        have hc : k ∈ k' :: dkeys rest := h
        rcases List.mem_cons.mp hc with h' | h'
        · exact absurd h'.symm hk
        · exact h'
      obtain ⟨v, hv⟩ := ih hmem
      exact ⟨v, by rw [dlook, if_neg hk]; exact hv⟩

theorem mem_dvalues_of_dlook {m : List (String × α)} {k : String} {v : α}
    (h : dlook m k = some v) : v ∈ dvalues m := by
  have := mem_of_dlook h
  simpa [dvalues] using List.mem_map_of_mem Prod.snd this

/-! ### Reachability step lemmas -/

theorem dlook_none_dist {m : List (String × Node)} {name : String}
    (hlook : dlook m name = none) : ∀ f, distToRoot m name f = none := by
  intro f
  cases f with
  | zero => rw [distToRoot, hlook]
  | succ f => rw [distToRoot, hlook]

theorem dist_root_eq {m : List (String × Node)} {name : String} {nd : Node}
    (hlook : dlook m name = some nd) (hpar : nd.parent_name = none) :
    ∀ f, distToRoot m name f = some 0 := by
  intro f
  cases f with
  | zero =>
    rw [distToRoot, hlook]
    dsimp only
    rw [hpar]
    rfl
  | succ f =>
    rw [distToRoot, hlook]
    dsimp only
    rw [hpar]

theorem dist_step_zero {m : List (String × Node)} {name : String} {nd : Node}
    {p : String} (hlook : dlook m name = some nd)
    (hpar : nd.parent_name = some p) : distToRoot m name 0 = none := by
  rw [distToRoot, hlook]
  dsimp only
  rw [hpar]
  rfl

theorem dist_step_succ {m : List (String × Node)} {name : String} {nd : Node}
    {p : String} (hlook : dlook m name = some nd)
    (hpar : nd.parent_name = some p) (f : Nat) :
    distToRoot m name (f + 1) = (distToRoot m p f).map (· + 1) := by
  rw [distToRoot, hlook]
  dsimp only
  rw [hpar]

theorem reach_none_eq {m : List (String × Node)} {name : String}
    (hlook : dlook m name = none) : ∀ f, reach m name f = false := by
  intro f
  cases f with
  | zero => rw [reach, hlook]
  | succ f => rw [reach, hlook]

theorem reach_root_eq {m : List (String × Node)} {name : String} {nd : Node}
    (hlook : dlook m name = some nd) (hpar : nd.parent_name = none) :
    ∀ f, reach m name f = true := by
  intro f
  cases f with
  | zero =>
    rw [reach, hlook]
    dsimp only
    rw [hpar]
    rfl
  | succ f =>
    rw [reach, hlook]
    dsimp only
    rw [hpar]

theorem reach_step_zero {m : List (String × Node)} {name : String} {nd : Node}
    {p : String} (hlook : dlook m name = some nd)
    (hpar : nd.parent_name = some p) : reach m name 0 = false := by
  rw [reach, hlook]
  dsimp only
  rw [hpar]
  rfl

theorem reach_step_succ {m : List (String × Node)} {name : String} {nd : Node}
    {p : String} (hlook : dlook m name = some nd)
    (hpar : nd.parent_name = some p) (f : Nat) :
    reach m name (f + 1) = reach m p f := by
  rw [reach, hlook]
  dsimp only
  rw [hpar]

/-! ### Reachability lemmas -/

theorem dist_lookup {m : List (String × Node)} {name : String} {f d : Nat}
    (h : distToRoot m name f = some d) : ∃ nd, dlook m name = some nd := by
  cases hlook : dlook m name with
  | none => rw [dlook_none_dist hlook] at h; cases h
  | some nd => exact ⟨nd, rfl⟩

theorem dist_le_fuel {m : List (String × Node)} :
    ∀ f name d, distToRoot m name f = some d → d ≤ f := by
  intro f
  induction f with
  | zero =>
    intro name d h
    obtain ⟨nd, hlook⟩ := dist_lookup h
    cases hpar : nd.parent_name with
    | some p => rw [dist_step_zero hlook hpar] at h; cases h
    | none =>
      rw [dist_root_eq hlook hpar] at h
      injection h with h'
      omega
  | succ f ih =>
    intro name d h
    obtain ⟨nd, hlook⟩ := dist_lookup h
    cases hpar : nd.parent_name with
    | none =>
      rw [dist_root_eq hlook hpar] at h
      injection h with h'
      omega
    | some p =>
      rw [dist_step_succ hlook hpar, Option.map_eq_some'] at h
      obtain ⟨e, he, hd⟩ := h
      have := ih p e he
      omega

theorem dist_mono {m : List (String × Node)} :
    ∀ f name d f', distToRoot m name f = some d → d ≤ f' →
      distToRoot m name f' = some d := by
  intro f
  induction f with
  | zero =>
    intro name d f' h hle
    obtain ⟨nd, hlook⟩ := dist_lookup h
    cases hpar : nd.parent_name with
    | some p => rw [dist_step_zero hlook hpar] at h; cases h
    | none =>
      rw [dist_root_eq hlook hpar] at h
      injection h with h'
      subst h'
      exact dist_root_eq hlook hpar f'
  | succ f ih =>
    intro name d f' h hle
    obtain ⟨nd, hlook⟩ := dist_lookup h
    cases hpar : nd.parent_name with
    | none =>
      rw [dist_root_eq hlook hpar] at h
      injection h with h'
      subst h'
      exact dist_root_eq hlook hpar f'
    | some p =>
      rw [dist_step_succ hlook hpar, Option.map_eq_some'] at h
      obtain ⟨e, he, hd⟩ := h
      subst hd
      cases f' with
      | zero => omega
      | succ f'' =>
        rw [dist_step_succ hlook hpar, ih p e f'' he (by omega)]
        rfl

theorem reach_iff_dist {m : List (String × Node)} :
    ∀ f name, reach m name f = true ↔ ∃ d, distToRoot m name f = some d := by
  intro f
  induction f with
  | zero =>
    intro name
    cases hlook : dlook m name with
    | none => rw [reach_none_eq hlook, dlook_none_dist hlook]; simp
    | some nd =>
      cases hpar : nd.parent_name with
      | none => rw [reach_root_eq hlook hpar, dist_root_eq hlook hpar]; simp
      | some p => rw [reach_step_zero hlook hpar, dist_step_zero hlook hpar]; simp
  | succ f ih =>
    intro name
    cases hlook : dlook m name with
    | none => rw [reach_none_eq hlook, dlook_none_dist hlook]; simp
    | some nd =>
      cases hpar : nd.parent_name with
      | none => rw [reach_root_eq hlook hpar, dist_root_eq hlook hpar]; simp
      | some p =>
        rw [reach_step_succ hlook hpar, dist_step_succ hlook hpar, ih p]
        constructor
        · rintro ⟨d, hd⟩
          exact ⟨d + 1, by rw [hd]; rfl⟩
        · rintro ⟨d, hd⟩
          rw [Option.map_eq_some'] at hd
          obtain ⟨e, he, _⟩ := hd
          exact ⟨e, he⟩

theorem dist_parent_some {m : List (String × Node)} {name : String} {f d : Nat}
    {nd : Node} {p : String} (h : distToRoot m name f = some d)
    (hlook : dlook m name = some nd) (hpar : nd.parent_name = some p) :
    ∃ e, d = e + 1 ∧ distToRoot m p f = some e := by
  cases f with
  | zero => rw [dist_step_zero hlook hpar] at h; cases h
  | succ f' =>
    rw [dist_step_succ hlook hpar, Option.map_eq_some'] at h
    obtain ⟨e, he, hd⟩ := h
    exact ⟨e, hd.symm,
      dist_mono f' p e (f' + 1) he (by have := dist_le_fuel f' p e he; omega)⟩

theorem dist_chain {m : List (String × Node)} :
    ∀ f name d, distToRoot m name f = some d →
      ∃ c : List String, c.Nodup ∧ (∀ x ∈ c, x ∈ dkeys m) ∧ c.length = d + 1 ∧
        ∀ x ∈ c, ∃ e, e ≤ d ∧ distToRoot m x f = some e := by
  intro f
  induction f with
  | zero =>
    intro name d h
    have hd0 : d = 0 := by have := dist_le_fuel 0 name d h; omega
    subst hd0
    obtain ⟨nd, hlook⟩ := dist_lookup h
    refine ⟨[name], by simp, by simp [dlook_mem_dkeys hlook], by simp, ?_⟩
    intro x hx
    simp only [List.mem_singleton] at hx
    subst hx
    exact ⟨0, le_refl _, h⟩
  | succ f ih =>
    intro name d h
    obtain ⟨nd, hlook⟩ := dist_lookup h
    cases hpar : nd.parent_name with
    | none =>
      have hd0 : d = 0 := by
        rw [dist_root_eq hlook hpar] at h
        injection h with h'
        omega
      subst hd0
      refine ⟨[name], by simp, by simp [dlook_mem_dkeys hlook], by simp, ?_⟩
      intro x hx
      simp only [List.mem_singleton] at hx
      subst hx
      exact ⟨0, le_refl _, h⟩
    | some p =>
      rw [dist_step_succ hlook hpar, Option.map_eq_some'] at h
      obtain ⟨e, he, hd⟩ := h
      subst hd
      obtain ⟨c', hnodup, hmemk, hlen, hdist⟩ := ih p e he
      have hname_dist : distToRoot m name (f + 1) = some (e + 1) := by
        rw [dist_step_succ hlook hpar, he]
        rfl
      have hnotin : name ∉ c' := by
        intro hin
        obtain ⟨e', hle, he'⟩ := hdist name hin
        have hlift : distToRoot m name (f + 1) = some e' :=
          dist_mono f name e' (f + 1) he' (by have := dist_le_fuel f name e' he'; omega)
        rw [hname_dist] at hlift
        injection hlift with h2
        omega
      refine ⟨name :: c', List.nodup_cons.mpr ⟨hnotin, hnodup⟩, ?_, ?_, ?_⟩
      · intro x hx
        rcases List.mem_cons.mp hx with rfl | hx'
        · exact dlook_mem_dkeys hlook
        · exact hmemk x hx'
      · simp [List.length_cons, hlen]
      · intro x hx
        rcases List.mem_cons.mp hx with rfl | hx'
        · exact ⟨e + 1, le_refl _, hname_dist⟩
        · obtain ⟨e', hle, he'⟩ := hdist x hx'
          exact ⟨e', by omega,
            dist_mono f x e' (f + 1) he' (by have := dist_le_fuel f x e' he'; omega)⟩

theorem nodup_subset_length {c l : List String} (hnodup : c.Nodup)
    (hsub : ∀ x ∈ c, x ∈ l) : c.length ≤ l.length := by
  have h1 : c.toFinset.card = c.length := List.toFinset_card_of_nodup hnodup
  have h2 : c.toFinset ⊆ l.toFinset := by
    intro x hx
    rw [List.mem_toFinset] at hx ⊢
    exact hsub x hx
  have h3 := Finset.card_le_card h2
  have h4 := l.toFinset_card_le
  omega

theorem dist_lt_length {m : List (String × Node)} {name : String} {f d : Nat}
    (hnd : (dkeys m).Nodup) (h : distToRoot m name f = some d) : d < m.length := by
  obtain ⟨c, hnodup, hmem, hlen, _⟩ := dist_chain f name d h
  have := nodup_subset_length hnodup hmem
  have hkl : (dkeys m).length = m.length := by simp [dkeys]
  omega

theorem reach_length_of_reach {m : List (String × Node)} {name : String} {f : Nat}
    (hnd : (dkeys m).Nodup) (h : reach m name f = true) :
    reach m name m.length = true := by
  obtain ⟨d, hd⟩ := (reach_iff_dist f name).mp h
  have hlt := dist_lt_length hnd hd
  exact (reach_iff_dist m.length name).mpr
    ⟨d, dist_mono f name d m.length hd (by omega)⟩

theorem bad_of_not_reach {m : List (String × Node)} {name : String}
    (hnd : (dkeys m).Nodup) (h : reach m name m.length = false) :
    ∀ f, reach m name f = false := by
  intro f
  cases hr : reach m name f with
  | false => rfl
  | true =>
    have := reach_length_of_reach hnd hr
    rw [h] at this
    cases this

theorem bad_parent {m : List (String × Node)} {name : String} {nd : Node} {p : String}
    (hlook : dlook m name = some nd) (hpar : nd.parent_name = some p)
    (hbad : ∀ f, reach m name f = false) : ∀ f, reach m p f = false := by
  intro f
  cases hr : reach m p f with
  | false => rfl
  | true =>
    have h1 : reach m name (f + 1) = true := by
      rw [reach_step_succ hlook hpar]
      exact hr
    rw [hbad (f + 1)] at h1
    cases h1

theorem parentsResolve_spec {m : List (String × Node)}
    (h : parentsResolve m = true) {nd : Node} {p : String}
    (hmem : nd ∈ dvalues m) (hp : nd.parent_name = some p) : p ∈ dkeys m := by
  have := List.all_eq_true.mp h nd hmem
  rw [hp] at this
  simpa using this

/-! ### Walk success and cycle-detection lemmas -/

theorem checkPath_ok {m : List (String × Node)} {F : Nat} :
    ∀ d name path visited,
      distToRoot m name F = some d →
      (∀ x ∈ path, ∃ e, distToRoot m x F = some e ∧ d < e) →
      ∃ visited', checkPathToRoot m name path visited = .ok visited' ∧
        ∀ y ∈ visited', y ∈ visited ∨ ∃ e, distToRoot m y F = some e := by
  intro d
  induction d using Nat.strong_induction_on with
  | _ d ih =>
    intro name path visited hd hpath
    rw [checkPathToRoot_eq]
    have hnp : name ∉ path := by
      intro hmem
      obtain ⟨e, he, hlt⟩ := hpath name hmem
      rw [hd] at he
      injection he with h'
      omega
    rw [if_neg hnp]
    by_cases hv : name ∈ visited
    · rw [if_pos hv]
      exact ⟨visited, rfl, fun y hy => Or.inl hy⟩
    · rw [if_neg hv]
      obtain ⟨nd, hlook⟩ := dist_lookup hd
      rw [hlook]
      dsimp only
      cases hpar : nd.parent_name with
      | none =>
        refine ⟨name :: visited, rfl, ?_⟩
        intro y hy
        rcases List.mem_cons.mp hy with rfl | hy'
        · exact Or.inr ⟨d, hd⟩
        · exact Or.inl hy'
      | some p =>
        dsimp only
        obtain ⟨e, hde, hp⟩ := dist_parent_some hd hlook hpar
        have hpk : p ∈ dkeys m := by
          obtain ⟨pv, hpv⟩ := dist_lookup hp
          exact dlook_mem_dkeys hpv
        rw [if_pos hpk]
        have hpath' : ∀ x ∈ name :: path, ∃ e', distToRoot m x F = some e' ∧ e < e' := by
          intro x hx
          rcases List.mem_cons.mp hx with rfl | hx'
          · exact ⟨d, hd, by omega⟩
          · obtain ⟨e', he', hlt'⟩ := hpath x hx'
            exact ⟨e', he', by omega⟩
        obtain ⟨visited', heq, hmem⟩ :=
          ih e (by omega) p (name :: path) (name :: visited) hp hpath'
        refine ⟨visited', heq, ?_⟩
        intro y hy
        rcases hmem y hy with hy' | hy'
        · rcases List.mem_cons.mp hy' with rfl | hy''
          · exact Or.inr ⟨d, hd⟩
          · exact Or.inl hy''
        · exact Or.inr hy'

theorem checkPath_circular {m : List (String × Node)}
    (hpr : parentsResolve m = true) :
    ∀ μ name path visited,
      unvisitedCount m visited = μ →
      name ∈ dkeys m →
      (∀ f, reach m name f = false) →
      (∀ y ∈ visited, (∃ f, reach m y f = true) ∨ y ∈ path) →
      checkPathToRoot m name path visited = .error .circularReferenceError := by
  intro μ
  induction μ using Nat.strong_induction_on with
  | _ μ ih =>
    intro name path visited hμ hk hbad hvis
    rw [checkPathToRoot_eq]
    by_cases hp : name ∈ path
    · rw [if_pos hp]
    · rw [if_neg hp]
      by_cases hv : name ∈ visited
      · rcases hvis name hv with ⟨f, hf⟩ | hmem
        · rw [hbad f] at hf
          cases hf
        · exact absurd hmem hp
      · rw [if_neg hv]
        obtain ⟨nd, hlook⟩ := dlook_of_mem_keys hk
        rw [hlook]
        dsimp only
        cases hpar : nd.parent_name with
        | none =>
          have := reach_root_eq hlook hpar 0
          rw [hbad 0] at this
          cases this
        | some p =>
          dsimp only
          have hpk : p ∈ dkeys m :=
            parentsResolve_spec hpr (mem_dvalues_of_dlook hlook) hpar
          rw [if_pos hpk]
          have hμ' : unvisitedCount m (name :: visited) < μ := by
            rw [← hμ]
            exact unvisitedCount_cons_lt hk hv
          apply ih _ hμ' p (name :: path) (name :: visited) rfl hpk
            (bad_parent hlook hpar hbad)
          intro y hy
          rcases List.mem_cons.mp hy with rfl | hy'
          · exact Or.inr (List.mem_cons_self _ _)
          · rcases hvis y hy' with hgood | hmem
            · exact Or.inl hgood
            · exact Or.inr (List.mem_cons_of_mem _ hmem)

theorem validateWalks_ok {m : List (String × Node)} {F : Nat} :
    ∀ rem visited,
      (∀ n ∈ rem, ∃ d, distToRoot m n.name F = some d) →
      validateWalks m rem visited = .ok () := by
  intro rem
  induction rem with
  | nil => intro visited h; rfl
  | cons node rest ihr =>
    intro visited h
    rw [validateWalks]
    by_cases hv : node.name ∈ visited
    · rw [if_pos hv]
      exact ihr visited (fun n hn => h n (List.mem_cons_of_mem _ hn))
    · rw [if_neg hv]
      obtain ⟨d, hd⟩ := h node (List.mem_cons_self _ _)
      obtain ⟨visited', heq, _⟩ :=
        checkPath_ok d node.name [] visited hd (by intro x hx; cases hx)
      rw [heq]
      exact ihr visited' (fun n hn => h n (List.mem_cons_of_mem _ hn))

theorem validateWalks_circular {m : List (String × Node)}
    (hnd : (dkeys m).Nodup) (hpr : parentsResolve m = true) :
    ∀ rem visited,
      (∀ n ∈ rem, n.name ∈ dkeys m) →
      (∀ y ∈ visited, ∃ f, reach m y f = true) →
      (∃ n ∈ rem, reach m n.name m.length = false) →
      validateWalks m rem visited = .error .circularReferenceError := by
  intro rem
  induction rem with
  | nil =>
    intro visited _ _ hbad
    obtain ⟨n, hn, _⟩ := hbad
    cases hn
  | cons node rest ihr =>
    intro visited hks hgood hbad
    rw [validateWalks]
    cases hr : reach m node.name m.length with
    | false =>
      have hB : ∀ f, reach m node.name f = false := bad_of_not_reach hnd hr
      have hv : node.name ∉ visited := by
        intro hmem
        obtain ⟨f, hf⟩ := hgood node.name hmem
        rw [hB f] at hf
        cases hf
      rw [if_neg hv]
      rw [checkPath_circular hpr (unvisitedCount m visited) node.name [] visited rfl
        (hks node (List.mem_cons_self _ _)) hB
        (fun y hy => Or.inl (hgood y hy))]
    | true =>
      have hbad' : ∃ n ∈ rest, reach m n.name m.length = false := by
        obtain ⟨n, hn, hnb⟩ := hbad
        rcases List.mem_cons.mp hn with rfl | hn'
        · rw [hr] at hnb
          cases hnb
        · exact ⟨n, hn', hnb⟩
      by_cases hv : node.name ∈ visited
      · rw [if_pos hv]
        exact ihr visited (fun n hn => hks n (List.mem_cons_of_mem _ hn)) hgood hbad'
      · rw [if_neg hv]
        obtain ⟨d, hd⟩ := (reach_iff_dist m.length node.name).mp hr
        obtain ⟨visited', heq, hmem⟩ :=
          checkPath_ok d node.name [] visited hd (by intro x hx; cases hx)
        rw [heq]
        apply ihr visited' (fun n hn => hks n (List.mem_cons_of_mem _ hn))
        · intro y hy
          rcases hmem y hy with hy' | ⟨e, he⟩
          · exact hgood y hy'
          · exact ⟨m.length, (reach_iff_dist m.length y).mpr ⟨e, he⟩⟩
        · exact hbad'

/-! ### Dict construction lemmas -/

theorem dinsert_append {m : List (String × α)} {k : String} {v : α}
    (h : k ∉ dkeys m) : dinsert m k v = m ++ [(k, v)] := by
  induction m with
  | nil => rfl
  | cons p rest ih =>
    obtain ⟨k', v'⟩ := p
    have hk : k' ≠ k := by
      intro he
      exact h (by simp [dkeys, he])
    rw [dinsert, if_neg hk]
    have : k ∉ dkeys rest := by
      intro hmem
      exact h (by simp [dkeys] at hmem ⊢; right; exact hmem)
    rw [ih this]
    rfl

theorem dictOf_aux {α : Type} :
    ∀ (l acc : List (String × α)), (dkeys (acc ++ l)).Nodup →
      List.foldl (fun m p => dinsert m p.1 p.2) acc l = acc ++ l := by
  intro l
  induction l with
  | nil => intro acc h; simp
  | cons p rest ih =>
    intro acc h
    have hkeys : dkeys (acc ++ p :: rest) = dkeys acc ++ p.1 :: dkeys rest := by
      simp [dkeys]
    rw [hkeys] at h
    have hnot : p.1 ∉ dkeys acc := by
      intro hmem
      rcases List.nodup_append.mp h with ⟨_, _, hdisj⟩
      exact hdisj hmem (List.mem_cons_self _ _)
    rw [List.foldl_cons, dinsert_append hnot]
    have h' : (dkeys ((acc ++ [p]) ++ rest)).Nodup := by
      have : (acc ++ [p]) ++ rest = acc ++ p :: rest := by simp
      rw [this, hkeys]
      exact h
    rw [ih (acc ++ [p]) h']
    simp

theorem dictOf_eq_self {α : Type} {l : List (String × α)}
    (h : (dkeys l).Nodup) : dictOf l = l := by
  have := dictOf_aux l [] (by simpa using h)
  simpa [dictOf] using this

theorem dkeys_pairsOf (l : List Node) : dkeys (pairsOf l) = l.map Node.name := by
  simp [dkeys, pairsOf]

theorem dvalues_pairsOf (l : List Node) : dvalues (pairsOf l) = l := by
  induction l with
  | nil => rfl
  | cons n rest ih =>
    simp only [dvalues, pairsOf, List.map_cons, List.map_map] at ih ⊢
    rw [ih]

theorem dictOf_pairsOf {l : List Node} (hnd : (l.map Node.name).Nodup) :
    dictOf (pairsOf l) = pairsOf l :=
  dictOf_eq_self (by rw [dkeys_pairsOf]; exact hnd)

/-! ### C2 and C8: KinematicTree construction -/

theorem pairsOf_map_eq (l : List Node) :
    l.map (fun n => (n.name, n)) = pairsOf l := rfl

theorem pairsOf_isEmpty_false {l : List Node} (h : l ≠ []) :
    (pairsOf l).isEmpty = false := by
  cases l with
  | nil => exact absurd rfl h
  | cons a as => rfl

/-- C2 (amended): with pairwise-distinct node names, `from_nodes` succeeds on
lists with exactly one null-parent entry whose parent references all resolve
without cycles (every node reaches the root), and `root` then returns that
unique null-parent node; a nonempty list with zero null-parent entries raises
`NoRootError`; a list with two or more null-parent entries raises
`NotConnectedError`.  (The original claim fails on the empty list and on
duplicate-name lists, see the counterexample.) -/
theorem C2_from_nodes_validation (l : List Node)
    (hnd : (l.map Node.name).Nodup) :
    (∀ r, l.filter (fun n => n.is_root) = [r] →
        allReach (pairsOf l) = true →
        fromNodes l = .ok ⟨pairsOf l⟩ ∧
          (KinematicTree.mk (pairsOf l)).root = some r) ∧
    (l ≠ [] → l.filter (fun n => n.is_root) = [] →
        fromNodes l = .error .noRootError) ∧
    (2 ≤ (l.filter (fun n => n.is_root)).length →
        fromNodes l = .error .notConnectedError) := by
  have hdict := dictOf_pairsOf hnd
  have hfrom : fromNodes l = KinematicTree.make (pairsOf l) := by
    rw [fromNodes, pairsOf_map_eq, hdict]
  refine ⟨?_, ?_, ?_⟩
  · intro r hfil hall
    have hne : l ≠ [] := by
      intro he
      subst he
      simp at hfil
    have hempty := pairsOf_isEmpty_false hne
    have hroots : (dvalues (pairsOf l)).filter (fun n => n.is_root) = [r] := by
      rw [dvalues_pairsOf]
      exact hfil
    have hwalk : validateWalks (pairsOf l) (dvalues (pairsOf l)) [] = .ok () := by
      rw [dvalues_pairsOf]
      apply validateWalks_ok
      intro n hn
      have hk : n.name ∈ dkeys (pairsOf l) := by
        rw [dkeys_pairsOf]
        exact List.mem_map_of_mem Node.name hn
      have hr : reach (pairsOf l) n.name (pairsOf l).length = true := by
        have := List.all_eq_true.mp hall n.name hk
        simpa using this
      exact (reach_iff_dist (pairsOf l).length n.name).mp hr
    have hval : validateTreeStructure (pairsOf l) = .ok () := by
      rw [validateTreeStructure, hempty, if_neg (by simp), hroots]
      simp only [List.length_singleton]
      rw [if_neg (by omega), if_neg (by omega)]
      exact hwalk
    constructor
    · rw [hfrom, KinematicTree.make, hval]
      rfl
    · rw [KinematicTree.root]
      show ((dvalues (pairsOf l)).filter (fun n => n.is_root)).head? = some r
      rw [hroots]
      rfl
  · intro hne hfil
    have hempty := pairsOf_isEmpty_false hne
    have hroots : (dvalues (pairsOf l)).filter (fun n => n.is_root) = [] := by
      rw [dvalues_pairsOf]
      exact hfil
    rw [hfrom, KinematicTree.make, validateTreeStructure, hempty,
      if_neg (by simp), hroots]
    rfl
  · intro h2
    have hne : l ≠ [] := by
      intro he
      subst he
      simp at h2
    have hempty := pairsOf_isEmpty_false hne
    have hroots : (dvalues (pairsOf l)).filter (fun n => n.is_root) =
        l.filter (fun n => n.is_root) := by
      rw [dvalues_pairsOf]
    rw [hfrom, KinematicTree.make, validateTreeStructure, hempty,
      if_neg (by simp), hroots]
    rw [if_neg (by omega), if_pos (by omega)]
    rfl

/-- C2 counterexample: as literally stated the claim is false — the empty
node list has zero null-parent entries yet construction succeeds (no
`NoRootError`), and a list with two null-parent entries of the same name
collapses in the name-keyed dict and constructs successfully (no
`NotConnectedError`). -/
theorem C2_counterexample :
    fromNodes [] = .ok ⟨[]⟩ ∧
    fromNodes [⟨"a", none, zeroOffset⟩, ⟨"a", none, zeroOffset⟩] =
      .ok ⟨[("a", ⟨"a", none, zeroOffset⟩)]⟩ := by
  constructor
  · rfl
  · decide

/-- Witness instantiating `C2_from_nodes_validation` on concrete node
lists. -/
theorem C2_witness :
    fromNodes [⟨"r", none, zeroOffset⟩, ⟨"c", some "r", zeroOffset⟩] =
      .ok ⟨pairsOf [⟨"r", none, zeroOffset⟩, ⟨"c", some "r", zeroOffset⟩]⟩ ∧
    (KinematicTree.mk
        (pairsOf [⟨"r", none, zeroOffset⟩, ⟨"c", some "r", zeroOffset⟩])).root =
      some ⟨"r", none, zeroOffset⟩ ∧
    fromNodes [⟨"c", some "c", zeroOffset⟩] = .error .noRootError ∧
    fromNodes [⟨"a", none, zeroOffset⟩, ⟨"b", none, zeroOffset⟩] =
      .error .notConnectedError := by
  refine ⟨?_, ?_, ?_, ?_⟩
  · exact ((C2_from_nodes_validation
      [⟨"r", none, zeroOffset⟩, ⟨"c", some "r", zeroOffset⟩] (by decide)).1
      ⟨"r", none, zeroOffset⟩ (by decide) (by decide)).1
  · exact ((C2_from_nodes_validation
      [⟨"r", none, zeroOffset⟩, ⟨"c", some "r", zeroOffset⟩] (by decide)).1
      ⟨"r", none, zeroOffset⟩ (by decide) (by decide)).2
  · exact (C2_from_nodes_validation [⟨"c", some "c", zeroOffset⟩]
      (by decide)).2.1 (by decide) (by decide)
  · exact (C2_from_nodes_validation
      [⟨"a", none, zeroOffset⟩, ⟨"b", none, zeroOffset⟩] (by decide)).2.2
      (by decide)

/-- C8 (amended): for every finite node list with pairwise-distinct names,
exactly one null-parent entry and all parent references resolving, whose
parent references contain a cycle (some node never reaches the root),
construction terminates — the embedded validation is a total function whose
recursion is bounded by the set of not-yet-visited names — and raises
`CircularReferenceError`.  (As literally stated the claim is false: a cyclic
list without a root raises `NoRootError` first, see the counterexample.) -/
theorem C8_cycle_detection (l : List Node)
    (hnd : (l.map Node.name).Nodup)
    (hone : (l.filter (fun n => n.is_root)).length = 1)
    (hpr : parentsResolve (pairsOf l) = true)
    (hcyc : hasCycle (pairsOf l) = true) :
    fromNodes l = .error .circularReferenceError := by
  have hdict := dictOf_pairsOf hnd
  have hfrom : fromNodes l = KinematicTree.make (pairsOf l) := by
    rw [fromNodes, pairsOf_map_eq, hdict]
  have hne : l ≠ [] := by
    intro he
    subst he
    simp at hone
  have hempty := pairsOf_isEmpty_false hne
  have hkeysnd : (dkeys (pairsOf l)).Nodup := by
    rw [dkeys_pairsOf]
    exact hnd
  obtain ⟨k, hk, hkbad⟩ := List.any_eq_true.mp hcyc
  have hkreach : reach (pairsOf l) k (pairsOf l).length = false := by
    cases hr : reach (pairsOf l) k (pairsOf l).length with
    | false => rfl
    | true => rw [hr] at hkbad; cases hkbad
  rw [dkeys_pairsOf] at hk
  obtain ⟨n, hn, hnk⟩ := List.mem_map.mp hk
  have hroots : (dvalues (pairsOf l)).filter (fun n => n.is_root) =
      l.filter (fun n => n.is_root) := by
    rw [dvalues_pairsOf]
  have hwalks : validateWalks (pairsOf l) (dvalues (pairsOf l)) [] =
      .error .circularReferenceError := by
    rw [dvalues_pairsOf]
    apply validateWalks_circular hkeysnd hpr l []
    · intro n' hn'
      rw [dkeys_pairsOf]
      exact List.mem_map_of_mem Node.name hn'
    · intro y hy
      cases hy
    · exact ⟨n, hn, by rw [hnk]; exact hkreach⟩
  rw [hfrom, KinematicTree.make, validateTreeStructure, hempty,
    if_neg (by simp), hroots, hone]
  rw [if_neg (by omega), if_neg (by omega), hwalks]
  rfl

/-- C8 counterexample: the two-node parent cycle `a → b → a` has no root, so
construction terminates with `NoRootError`, not `CircularReferenceError` as
the claim states for every cyclic list. -/
theorem C8_counterexample :
    hasCycle (pairsOf [⟨"a", some "b", zeroOffset⟩, ⟨"b", some "a", zeroOffset⟩]) =
      true ∧
    fromNodes [⟨"a", some "b", zeroOffset⟩, ⟨"b", some "a", zeroOffset⟩] =
      .error .noRootError := by
  constructor
  · decide
  · decide

/-- Witness instantiating `C8_cycle_detection` on a rooted list carrying the
cycle `a → b → a`. -/
theorem C8_witness :
    fromNodes [⟨"r", none, zeroOffset⟩, ⟨"a", some "b", zeroOffset⟩,
      ⟨"b", some "a", zeroOffset⟩] = .error .circularReferenceError :=
  C8_cycle_detection
    [⟨"r", none, zeroOffset⟩, ⟨"a", some "b", zeroOffset⟩,
      ⟨"b", some "a", zeroOffset⟩]
    (by decide) (by decide) (by decide) (by decide)

/-! ### Quaternion algebra lemmas -/

theorem quatMul_one (q : Quat) : quatMul q Quat.one = q := by
  cases q with
  | mk x y z w => simp [quatMul, Quat.one]

theorem one_quatMul (q : Quat) : quatMul Quat.one q = q := by
  cases q with
  | mk x y z w => simp [quatMul, Quat.one]

theorem axisQuatDeg_zero (a : RAxis) : axisQuatDeg a 0 = Quat.one := by
  cases a <;> simp [axisQuatDeg, Quat.one]

theorem fromEuler_zxy_single (t : ℝ) :
    fromEuler [.Z, .X, .Y] [t, 0, 0] = axisQuatDeg .Z t := by
  show quatMul (quatMul (quatMul Quat.one (axisQuatDeg .Z t)) (axisQuatDeg .X 0))
      (axisQuatDeg .Y 0) = axisQuatDeg .Z t
  rw [one_quatMul, axisQuatDeg_zero, axisQuatDeg_zero, quatMul_one, quatMul_one]

theorem fromEuler_zxy_zero : fromEuler [.Z, .X, .Y] [0, 0, 0] = Quat.one := by
  rw [fromEuler_zxy_single, axisQuatDeg_zero]

/-! ### C1: per-row channel decoding -/

theorem except_bind_ok {ε α β : Type} (a : α) (f : α → Except ε β) :
    (Except.ok a : Except ε α).bind f = f a := rfl

theorem lastChanD_cons (c : Channel) (v : ℚ) (rest : List (Channel × ℚ))
    (c' : Channel) (d : ℚ) :
    lastChanD ((c, v) :: rest) c' d =
      if c = c' then lastChanD rest c' v else lastChanD rest c' d := by
  by_cases h : c = c'
  · subst h
    rw [if_pos rfl]
    show ((((c, v) :: rest).filter (fun cv => decide (cv.1 = c))).map
        Prod.snd).getLastD d = _
    rw [List.filter_cons, if_pos (by simp : decide (((c, v)).1 = c) = true),
      List.map_cons, List.getLastD_cons]
    rfl
  · rw [if_neg h]
    show ((((c, v) :: rest).filter (fun cv => decide (cv.1 = c'))).map
        Prod.snd).getLastD d = _
    rw [List.filter_cons, if_neg (by simp [h])]
    rfl

theorem decode_foldl_spec :
    ∀ (pairs : List (Channel × ℚ)) (p0 p1 p2 : ℚ) (axes : List RAxis)
      (vals : List ℚ),
      pairs.foldl decodeStep ([p0, p1, p2], axes, vals) =
        ([lastChanD pairs .Xposition p0, lastChanD pairs .Yposition p1,
          lastChanD pairs .Zposition p2],
         axes ++ pairs.filterMap (fun cv => cv.1.rotAxis),
         vals ++ (pairs.filter (fun cv => cv.1.isRotation)).map Prod.snd) := by
  intro pairs
  induction pairs with
  | nil => intro p0 p1 p2 axes vals; simp [lastChanD]
  | cons cv rest ih =>
    intro p0 p1 p2 axes vals
    obtain ⟨c, v⟩ := cv
    rw [List.foldl_cons]
    cases c with
    | Xposition =>
      show List.foldl decodeStep ([v, p1, p2], axes, vals) rest = _
      rw [ih]
      simp [lastChanD_cons, List.filterMap_cons, List.filter_cons,
        Channel.rotAxis, Channel.isRotation]
    | Yposition =>
      show List.foldl decodeStep ([p0, v, p2], axes, vals) rest = _
      rw [ih]
      simp [lastChanD_cons, List.filterMap_cons, List.filter_cons,
        Channel.rotAxis, Channel.isRotation]
    | Zposition =>
      show List.foldl decodeStep ([p0, p1, v], axes, vals) rest = _
      rw [ih]
      simp [lastChanD_cons, List.filterMap_cons, List.filter_cons,
        Channel.rotAxis, Channel.isRotation]
    | Xrotation =>
      show List.foldl decodeStep ([p0, p1, p2], axes ++ [.X], vals ++ [v]) rest = _
      rw [ih]
      simp [lastChanD_cons, List.filterMap_cons, List.filter_cons,
        Channel.rotAxis, Channel.isRotation]
    | Yrotation =>
      show List.foldl decodeStep ([p0, p1, p2], axes ++ [.Y], vals ++ [v]) rest = _
      rw [ih]
      simp [lastChanD_cons, List.filterMap_cons, List.filter_cons,
        Channel.rotAxis, Channel.isRotation]
    | Zrotation =>
      show List.foldl decodeStep ([p0, p1, p2], axes ++ [.Z], vals ++ [v]) rest = _
      rw [ih]
      simp [lastChanD_cons, List.filterMap_cons, List.filter_cons,
        Channel.rotAxis, Channel.isRotation]

theorem zip_filterMap_rotAxis :
    ∀ (channels : List Channel) (values : List ℚ),
      channels.length = values.length →
      (channels.zip values).filterMap (fun cv => cv.1.rotAxis) =
        channels.filterMap Channel.rotAxis := by
  intro channels
  induction channels with
  | nil => intro values h; simp
  | cons c rest ih =>
    intro values h
    cases values with
    | nil => simp at h
    | cons v vs =>
      simp only [List.zip_cons_cons, List.filterMap_cons]
      rw [ih vs (by simpa using h)]

theorem zip_filter_isRotation :
    ∀ (channels : List Channel) (values : List ℚ),
      channels.length = values.length →
      (((channels.zip values).filter (fun cv => cv.1.isRotation)).map
        Prod.snd).length = (channels.filter Channel.isRotation).length := by
  intro channels
  induction channels with
  | nil => intro values h; simp
  | cons c rest ih =>
    intro values h
    cases values with
    | nil => simp at h
    | cons v vs =>
      simp only [List.zip_cons_cons, List.filter_cons]
      cases hc : c.isRotation <;>
        simp [ih vs (by simpa using h)]

theorem filterMap_rotAxis_nil_iff (channels : List Channel) :
    channels.filterMap Channel.rotAxis = [] ↔
      channels.filter Channel.isRotation = [] := by
  induction channels with
  | nil => simp
  | cons c rest ih =>
    cases c <;>
      simp [List.filterMap_cons, List.filter_cons, Channel.rotAxis,
        Channel.isRotation, ih]

/-- C1 (amended): for every node and motion row, the decode of the node's
channel slice writes each declared position channel into its axis of a
3-vector, collects the rotation channels in exactly their declared order —
that order is the Euler rotation order — and builds one quaternion from
those degrees in that axis order, the identity quaternion when no rotation
channels are declared; and on the spec's 3-node example chain — with its
motion rows carried at the declared full width of 12 channel values — the
loader yields identity rotations everywhere except the root's second frame,
which is the 90-degree rotation about Z decoded in ZXY order.  (As printed
in the spec the example's rows hold only 9 values and fail to load, see the
counterexample.) -/
theorem C1_per_row_decoding :
    (∀ (channels : List Channel) (values : List ℚ),
      channels.length = values.length →
      parseChannelValues channels values =
        .ok (specPosition (channels.zip values),
          if (specRotAxes channels).isEmpty then Quat.one
          else fromEuler (specRotAxes channels)
            ((specRotVals (channels.zip values)).map (fun q => (q : ℝ))))) ∧
    (∀ (channels : List Channel) (values : List ℚ),
      channels.length = values.length →
      channels.filter Channel.isRotation = [] →
      parseChannelValues channels values =
        .ok (specPosition (channels.zip values), Quat.one)) ∧
    parseBvhContent exampleBvhText = .ok exampleMotionData := by
  have hmain : ∀ (channels : List Channel) (values : List ℚ),
      channels.length = values.length →
      parseChannelValues channels values =
        .ok (specPosition (channels.zip values),
          if (specRotAxes channels).isEmpty then Quat.one
          else fromEuler (specRotAxes channels)
            ((specRotVals (channels.zip values)).map (fun q => (q : ℝ)))) := by
    intro channels values h
    rw [parseChannelValues, if_neg (fun hne => hne h)]
    rw [decode_foldl_spec (channels.zip values) 0 0 0 [] []]
    simp only [List.nil_append]
    rw [zip_filterMap_rotAxis channels values h]
    rfl
  refine ⟨hmain, ?_, ?_⟩
  · intro channels values h hrot
    rw [hmain channels values h]
    have : specRotAxes channels = [] :=
      (filterMap_rotAxis_nil_iff channels).mpr hrot
    rw [specRotAxes] at this
    simp [this, specRotAxes]
  · have hs : splitIntoSections exampleBvhText = .ok
        ⟨["HIERARCHY", "ROOT Root", "\x7b", "OFFSET 0 0 0",
          "CHANNELS 6 Xposition Yposition Zposition Zrotation Xrotation Yrotation",
          "JOINT A", "\x7b", "OFFSET 1 0 0",
          "CHANNELS 3 Zrotation Xrotation Yrotation", "JOINT B", "\x7b",
          "OFFSET 0 1 0", "CHANNELS 3 Zrotation Xrotation Yrotation",
          "End Site", "\x7b", "OFFSET 0 0 1", "\x7d", "\x7d", "\x7d", "\x7d"],
         ["MOTION", "Frames: 2", "Frame Time: 0.033333",
          "0 0 0 0 0 0 0 0 0 0 0 0", "0 0 0 90 0 0 0 0 0 0 0 0"]⟩ := by
      decide
    have hh : parseHierarchySection
        ⟨["HIERARCHY", "ROOT Root", "\x7b", "OFFSET 0 0 0",
          "CHANNELS 6 Xposition Yposition Zposition Zrotation Xrotation Yrotation",
          "JOINT A", "\x7b", "OFFSET 1 0 0",
          "CHANNELS 3 Zrotation Xrotation Yrotation", "JOINT B", "\x7b",
          "OFFSET 0 1 0", "CHANNELS 3 Zrotation Xrotation Yrotation",
          "End Site", "\x7b", "OFFSET 0 0 1", "\x7d", "\x7d", "\x7d", "\x7d"],
         ["MOTION", "Frames: 2", "Frame Time: 0.033333",
          "0 0 0 0 0 0 0 0 0 0 0 0", "0 0 0 90 0 0 0 0 0 0 0 0"]⟩ =
        .ok exampleHierarchy := by
      decide
    have hm : parseMotionData exampleHierarchy
        ⟨["HIERARCHY", "ROOT Root", "\x7b", "OFFSET 0 0 0",
          "CHANNELS 6 Xposition Yposition Zposition Zrotation Xrotation Yrotation",
          "JOINT A", "\x7b", "OFFSET 1 0 0",
          "CHANNELS 3 Zrotation Xrotation Yrotation", "JOINT B", "\x7b",
          "OFFSET 0 1 0", "CHANNELS 3 Zrotation Xrotation Yrotation",
          "End Site", "\x7b", "OFFSET 0 0 1", "\x7d", "\x7d", "\x7d", "\x7d"],
         ["MOTION", "Frames: 2", "Frame Time: 0.033333",
          "0 0 0 0 0 0 0 0 0 0 0 0", "0 0 0 90 0 0 0 0 0 0 0 0"]⟩ =
        .ok exampleParsedMotion := by
      decide
    rw [parseBvhContent, hs, except_bind_ok, hh, except_bind_ok, hm,
      except_bind_ok]
    have hb : buildMotionData exampleParsedMotion = .ok
        ⟨exampleTree,
         [("Root", [[((0:ℚ):ℝ), ((0:ℚ):ℝ), ((0:ℚ):ℝ)],
                    [((0:ℚ):ℝ), ((0:ℚ):ℝ), ((0:ℚ):ℝ)]])],
         [("Root", [(fromEuler [.Z, .X, .Y]
                      [((0:ℚ):ℝ), ((0:ℚ):ℝ), ((0:ℚ):ℝ)]).toRow,
                    (fromEuler [.Z, .X, .Y]
                      [((90:ℚ):ℝ), ((0:ℚ):ℝ), ((0:ℚ):ℝ)]).toRow]),
          ("A", [(fromEuler [.Z, .X, .Y]
                   [((0:ℚ):ℝ), ((0:ℚ):ℝ), ((0:ℚ):ℝ)]).toRow,
                 (fromEuler [.Z, .X, .Y]
                   [((0:ℚ):ℝ), ((0:ℚ):ℝ), ((0:ℚ):ℝ)]).toRow]),
          ("B", [(fromEuler [.Z, .X, .Y]
                   [((0:ℚ):ℝ), ((0:ℚ):ℝ), ((0:ℚ):ℝ)]).toRow,
                 (fromEuler [.Z, .X, .Y]
                   [((0:ℚ):ℝ), ((0:ℚ):ℝ), ((0:ℚ):ℝ)]).toRow])],
         mkRat 33333 1000000, 2⟩ := by
      rfl
    rw [hb]
    have hz : ((0:ℚ):ℝ) = (0:ℝ) := by norm_num
    have h90 : ((90:ℚ):ℝ) = (90:ℝ) := by norm_num
    rw [exampleMotionData]
    simp only [hz, h90, fromEuler_zxy_zero, fromEuler_zxy_single, axisQuatDeg_zero]

/-- C1 counterexample: the example exactly as the spec prints it — motion
rows of nine values against 12 declared channels — aborts with a
`ParseError` instead of loading. -/
theorem C1_counterexample :
    parseBvhContent exampleBvhTextLiteral = .error .parseError := by
  rfl

/-- Witness instantiating the decode characterization of
`C1_per_row_decoding` on a concrete channel list and value row. -/
theorem C1_witness :
    [Channel.Xposition, Channel.Zrotation].length = [(5:ℚ), 90].length ∧
    parseChannelValues [.Xposition, .Zrotation] [5, 90] =
      .ok (specPosition ([(.Xposition : Channel), .Zrotation].zip [(5:ℚ), 90]),
        fromEuler (specRotAxes [.Xposition, .Zrotation])
          ((specRotVals ([(.Xposition : Channel), .Zrotation].zip
            [(5:ℚ), 90])).map (fun q => (q : ℝ)))) := by
  refine ⟨by decide, ?_⟩
  rw [C1_per_row_decoding.1 [.Xposition, .Zrotation] [5, 90] (by decide)]
  simp [specRotAxes, Channel.rotAxis]

/-! ### C3: MotionData construction invariants -/

theorem freezeArray_ok {a : List (List ℝ)} {k : Nat} {out : List (List ℝ)}
    (h : freezeArray a k = .ok out) :
    out = a ∧ ∀ row ∈ a, row.length = k := by
  rw [freezeArray] at h
  by_cases hall : a.all (fun row => decide (row.length = k)) = true
  · rw [if_pos hall] at h
    injection h with h'
    refine ⟨h'.symm, ?_⟩
    intro row hrow
    have := List.all_eq_true.mp hall row hrow
    simpa using this
  · rw [if_neg hall] at h
    cases h

theorem freezeArray_bad {a : List (List ℝ)} {k : Nat}
    (h : ∃ row ∈ a, row.length ≠ k) : freezeArray a k = .error .valueError := by
  rw [freezeArray, if_neg]
  intro hall
  obtain ⟨row, hrow, hne⟩ := h
  have := List.all_eq_true.mp hall row hrow
  simp at this
  exact hne this

theorem freezeMapping_ok :
    ∀ (data out : List (String × List (List ℝ))) (k : Nat),
      freezeMapping data k = .ok out →
      out = data ∧ ∀ p ∈ data, ∀ row ∈ p.2, row.length = k := by
  intro data
  induction data with
  | nil =>
    intro out k h
    injection h with h'
    exact ⟨h'.symm, by simp⟩
  | cons p rest ih =>
    intro out k h
    rw [freezeMapping] at h
    cases hf : freezeArray p.2 k with
    | error e => rw [hf] at h; cases h
    | ok a =>
      rw [hf] at h
      dsimp only at h
      cases hr : freezeMapping rest k with
      | error e => rw [hr] at h; cases h
      | ok out' =>
        rw [hr] at h
        injection h with h'
        obtain ⟨ha, hrows⟩ := freezeArray_ok hf
        obtain ⟨hout, hall⟩ := ih out' k hr
        subst ha
        refine ⟨?_, ?_⟩
        · rw [← h', hout]
        · intro q hq
          rcases List.mem_cons.mp hq with rfl | hq'
          · exact hrows
          · exact hall q hq'

theorem freezeMapping_bad :
    ∀ (data : List (String × List (List ℝ))) (k : Nat),
      (∃ p ∈ data, ∃ row ∈ p.2, row.length ≠ k) →
      freezeMapping data k = .error .valueError := by
  intro data
  induction data with
  | nil =>
    intro k h
    obtain ⟨p, hp, _⟩ := h
    cases hp
  | cons p rest ih =>
    intro k h
    rw [freezeMapping]
    cases hf : freezeArray p.2 k with
    | error e =>
      rw [freezeArray] at hf
      by_cases hall : p.2.all (fun row => decide (row.length = k)) = true
      · rw [if_pos hall] at hf; cases hf
      · rw [if_neg hall] at hf
        injection hf with h'
        rw [← h']
    | ok a =>
      obtain ⟨_, hrows⟩ := freezeArray_ok hf
      have hrest : ∃ q ∈ rest, ∃ row ∈ q.2, row.length ≠ k := by
        obtain ⟨q, hq, row, hrow, hne⟩ := h
        rcases List.mem_cons.mp hq with rfl | hq'
        · exact absurd (hrows row hrow) hne
        · exact ⟨q, hq', row, hrow, hne⟩
      rw [ih k hrest]

theorem validateMappingNodes_ok {tree : KinematicTree}
    {data out : List (String × List (List ℝ))}
    (h : validateMappingNodes tree data = .ok out) : out = dictOf data := by
  rw [validateMappingNodes] at h
  by_cases hall : data.all (fun p => decide (p.1 ∈ dkeys tree.nodes)) = true
  · rw [if_pos hall] at h
    injection h with h'
    exact h'.symm
  · rw [if_neg hall] at h
    cases h

theorem inferFrameCount_ok {pos rot : List (String × List (List ℝ))} {fc : Nat}
    (h : inferAndValidateFrameCount pos rot = .ok fc) :
    (∀ p ∈ pos, ∀ q ∈ pos, p.2.length = q.2.length) ∧
    (∀ p ∈ rot, p.2.length = fc) ∧
    (rot = [] → ∀ p ∈ pos, p.2.length = fc) ∧
    ((∃ p ∈ pos, p.2.length ≠ 0) → ∀ p ∈ pos, p.2.length = fc) := by
  rw [inferAndValidateFrameCount.eq_def] at h
  by_cases hposall : pos.all
      (fun p => decide (p.2.length = firstFrameCount pos)) = true
  · rw [if_pos hposall] at h
    have hpos : ∀ p ∈ pos, p.2.length = firstFrameCount pos := by
      intro p hp
      have := List.all_eq_true.mp hposall p hp
      simpa using this
    have hmutual : ∀ p ∈ pos, ∀ q ∈ pos, p.2.length = q.2.length := by
      intro p hp q hq
      rw [hpos p hp, hpos q hq]
    cases rot with
    | nil =>
      injection h with h'
      refine ⟨hmutual, by simp, ?_, ?_⟩
      · intro _ p hp
        rw [hpos p hp, h']
      · intro _ p hp
        rw [hpos p hp, h']
    | cons r rrest =>
      dsimp only at h
      by_cases hrotall : (r :: rrest).all
          (fun p => decide (p.2.length =
            (if firstFrameCount pos = 0 then r.2.length
             else firstFrameCount pos))) = true
      · rw [if_pos hrotall] at h
        injection h with h'
        have hrot : ∀ p ∈ r :: rrest, p.2.length = fc := by
          intro p hp
          have := List.all_eq_true.mp hrotall p hp
          rw [← h']
          simpa using this
        refine ⟨hmutual, hrot, ?_, ?_⟩
        · intro hc
          exact absurd hc (List.cons_ne_nil r rrest)
        intro hnz p hp
        obtain ⟨p0, hp0, hne⟩ := hnz
        have hfc0ne : firstFrameCount pos ≠ 0 := by
          intro hz
          exact hne (by rw [hpos p0 hp0, hz])
        have hfc : fc = firstFrameCount pos := by
          rw [← h', if_neg hfc0ne]
        rw [hpos p hp, hfc]
      · rw [if_neg hrotall] at h
        cases h
  · rw [if_neg hposall] at h
    cases h

theorem inferFrameCount_pos_mismatch {pos rot : List (String × List (List ℝ))}
    (h : ∃ p ∈ pos, ∃ q ∈ pos, p.2.length ≠ q.2.length) :
    inferAndValidateFrameCount pos rot = .error .valueError := by
  rw [inferAndValidateFrameCount.eq_def]
  rw [if_neg]
  intro hall
  obtain ⟨p, hp, q, hq, hne⟩ := h
  have h1 := List.all_eq_true.mp hall p hp
  have h2 := List.all_eq_true.mp hall q hq
  simp only [decide_eq_true_eq] at h1 h2
  exact hne (h1.trans h2.symm)

theorem bind_ok_inversion {ε α β : Type} {x : Except ε α} {f : α → Except ε β}
    {b : β} (h : x >>= f = .ok b) : ∃ a, x = .ok a ∧ f a = .ok b := by
  cases x with
  | error e => cases h
  | ok a => exact ⟨a, rfl, h⟩

theorem make_ok_inversion {tree : KinematicTree}
    {positions rotations : List (String × List (List ℝ))} {ft : ℚ}
    {md : MotionData}
    (h : MotionData.make tree positions rotations ft = .ok md) :
    md.kinematic_tree = tree ∧
    md.positions = dictOf positions ∧
    md.rotations = dictOf rotations ∧
    md.frame_time = ft ∧
    (∀ p ∈ md.positions, ∀ row ∈ p.2, row.length = 3) ∧
    (∀ p ∈ md.rotations, ∀ row ∈ p.2, row.length = 4) ∧
    inferAndValidateFrameCount md.positions md.rotations = .ok md.frame_count := by
  rw [MotionData.make] at h
  obtain ⟨vp, hvp, h⟩ := bind_ok_inversion h
  obtain ⟨vr, hvr, h⟩ := bind_ok_inversion h
  obtain ⟨pm, hpm, h⟩ := bind_ok_inversion h
  obtain ⟨rm, hrm, h⟩ := bind_ok_inversion h
  obtain ⟨fc, hfc, h⟩ := bind_ok_inversion h
  injection h with h'
  subst h'
  obtain ⟨hpm', hpshape⟩ := freezeMapping_ok vp pm 3 hpm
  obtain ⟨hrm', hrshape⟩ := freezeMapping_ok vr rm 4 hrm
  have hvp' := validateMappingNodes_ok hvp
  have hvr' := validateMappingNodes_ok hvr
  subst hpm'
  subst hrm'
  exact ⟨rfl, by rw [hvp'], by rw [hvr'], rfl,
    fun p hp => hpshape p hp, fun p hp => hrshape p hp, hfc⟩

theorem make_invariant {tree : KinematicTree}
    {positions rotations : List (String × List (List ℝ))} {ft : ℚ}
    {md : MotionData}
    (h : MotionData.make tree positions rotations ft = .ok md) :
    mdInvariant md := by
  obtain ⟨_, _, _, _, hp3, hr4, hfc⟩ := make_ok_inversion h
  obtain ⟨hmut, hrot, hrnil, hnz⟩ := inferFrameCount_ok hfc
  exact ⟨hp3, hr4, hmut, hrot, hrnil, hnz⟩

/-- C3 (amended): a successfully constructed MotionData — via the
constructor or `copy_with` — stores 3-column position arrays and 4-column
rotation arrays; all position arrays share one row count and all rotation
arrays equal the stored frame count, the frame count being inferred from the
first array encountered; column-count violations and same-kind frame-count
mismatches raise an error with no MotionData produced.  (The original
blanket cross-kind frame-count claim fails: a position map whose first array
has zero rows does not constrain the rotations' frame count — see the
counterexample.) -/
theorem C3_motion_data_invariants :
    (∀ (tree : KinematicTree) (positions rotations : List (String × List (List ℝ)))
      (ft : ℚ) (md : MotionData),
      MotionData.make tree positions rotations ft = .ok md → mdInvariant md) ∧
    (∀ (tree : KinematicTree) (positions rotations : List (String × List (List ℝ)))
      (ft : ℚ),
      (dkeys positions).Nodup →
      ((∃ p ∈ positions, ∃ row ∈ p.2, row.length ≠ 3) ∨
       (∃ p ∈ positions, ∃ q ∈ positions, p.2.length ≠ q.2.length)) →
      ∃ e, MotionData.make tree positions rotations ft = .error e) ∧
    (∀ (tree : KinematicTree) (positions rotations : List (String × List (List ℝ)))
      (ft : ℚ),
      (dkeys rotations).Nodup →
      ((∃ p ∈ rotations, ∃ row ∈ p.2, row.length ≠ 4) ∨
       (∃ p ∈ rotations, ∃ q ∈ rotations, p.2.length ≠ q.2.length)) →
      ∃ e, MotionData.make tree positions rotations ft = .error e) ∧
    (∀ (md : MotionData) (positions rotations : Option (List (String × List (List ℝ))))
      (ft : Option ℚ) (md' : MotionData),
      (∃ tree p0 r0 ft0, MotionData.make tree p0 r0 ft0 = .ok md) →
      MotionData.copyWith md positions rotations ft = .ok md' → mdInvariant md') := by
  refine ⟨fun tree positions rotations ft md h => make_invariant h, ?_, ?_, ?_⟩
  · intro tree positions rotations ft hnd hbad
    cases hres : MotionData.make tree positions rotations ft with
    | error e => exact ⟨e, rfl⟩
    | ok md =>
      exfalso
      obtain ⟨_, hpos, _, _, hp3, _, hfc⟩ := make_ok_inversion hres
      have hdict : dictOf positions = positions := dictOf_eq_self hnd
      rw [hdict] at hpos
      rcases hbad with ⟨p, hp, row, hrow, hne⟩ | ⟨p, hp, q, hq, hne⟩
      · exact hne (hp3 p (by rw [hpos]; exact hp) row hrow)
      · obtain ⟨hmut, _, _, _⟩ := inferFrameCount_ok hfc
        exact hne (hmut p (by rw [hpos]; exact hp) q (by rw [hpos]; exact hq))
  · intro tree positions rotations ft hnd hbad
    cases hres : MotionData.make tree positions rotations ft with
    | error e => exact ⟨e, rfl⟩
    | ok md =>
      exfalso
      obtain ⟨_, _, hrot, _, _, hr4, hfc⟩ := make_ok_inversion hres
      have hdict : dictOf rotations = rotations := dictOf_eq_self hnd
      rw [hdict] at hrot
      rcases hbad with ⟨p, hp, row, hrow, hne⟩ | ⟨p, hp, q, hq, hne⟩
      · exact hne (hr4 p (by rw [hrot]; exact hp) row hrow)
      · obtain ⟨_, hrfc, _, _⟩ := inferFrameCount_ok hfc
        have h1 := hrfc p (by rw [hrot]; exact hp)
        have h2 := hrfc q (by rw [hrot]; exact hq)
        exact hne (h1.trans h2.symm)
  · intro md positions rotations ft md' hmade hcw
    rw [MotionData.copyWith.eq_def] at hcw
    by_cases hfast : positions.isNone ∧ rotations.isNone ∧ ft.isNone
    · rw [if_pos hfast] at hcw
      injection hcw with h'
      obtain ⟨tree, p0, r0, ft0, hmk⟩ := hmade
      rw [← h']
      exact make_invariant hmk
    · rw [if_neg hfast] at hcw
      obtain ⟨newPos, _, h2⟩ := bind_ok_inversion hcw
      obtain ⟨newRot, _, h3⟩ := bind_ok_inversion h2
      obtain ⟨u, _, h4⟩ := bind_ok_inversion h3
      exact make_invariant h4

/-- C3 counterexample: a zero-row position array together with two-row
rotation arrays constructs successfully — the stored frame count is 2 while
the stored position array has 0 rows, against the claim that any frame-count
mismatch raises at construction. -/
theorem C3_counterexample :
    MotionData.make (KinematicTree.mk [("a", ⟨"a", none, zeroOffset⟩)])
      [("a", ([] : List (List ℝ)))]
      [("a", [[0, 0, 0, 1], [0, 0, 0, 1]])] (mkRat 1 30) =
    .ok ⟨KinematicTree.mk [("a", ⟨"a", none, zeroOffset⟩)], [("a", [])],
      [("a", [[0, 0, 0, 1], [0, 0, 0, 1]])], mkRat 1 30, 2⟩ := by
  rfl

/-- Witness instantiating `C3_motion_data_invariants` at concrete inputs. -/
theorem C3_witness :
    mdInvariant ⟨KinematicTree.mk [("a", ⟨"a", none, zeroOffset⟩)],
      [("a", [[0, 0, 0], [0, 0, 0]])], [("a", [[0, 0, 0, 1], [0, 0, 0, 1]])],
      mkRat 1 30, 2⟩ ∧
    (∃ e, MotionData.make (KinematicTree.mk [("a", ⟨"a", none, zeroOffset⟩)])
      [("a", [[0, 0]])] [] (mkRat 1 30) = .error e) := by
  constructor
  · exact C3_motion_data_invariants.1
      (KinematicTree.mk [("a", ⟨"a", none, zeroOffset⟩)])
      [("a", [[0, 0, 0], [0, 0, 0]])] [("a", [[0, 0, 0, 1], [0, 0, 0, 1]])]
      (mkRat 1 30) _ rfl
  · exact C3_motion_data_invariants.2.1
      (KinematicTree.mk [("a", ⟨"a", none, zeroOffset⟩)])
      [("a", [[0, 0]])] [] (mkRat 1 30) (by decide)
      (Or.inl ⟨("a", [[0, 0]]), by simp, [0, 0], by simp, by simp⟩)

/-! ### C5: loader error detection -/

theorem omapM_some_length {α β : Type} {f : α → Option β} :
    ∀ {xs : List α} {ys : List β}, omapM f xs = some ys → ys.length = xs.length := by
  intro xs
  induction xs with
  | nil =>
    intro ys h
    injection h with h'
    rw [← h']
    rfl
  | cons a rest ih =>
    intro ys h
    rw [omapM] at h
    cases hf : f a with
    | none => rw [hf] at h; cases h
    | some b =>
      rw [hf] at h
      dsimp only at h
      cases hr : omapM f rest with
      | none => rw [hr] at h; cases h
      | some bs =>
        rw [hr] at h
        injection h with h'
        rw [← h', List.length_cons, List.length_cons, ih hr]

theorem emapM_ok_mem {α β : Type} {f : α → Except Err β} :
    ∀ {xs : List α} {ys : List β}, emapM f xs = .ok ys →
      ∀ y ∈ ys, ∃ x ∈ xs, f x = .ok y := by
  intro xs
  induction xs with
  | nil =>
    intro ys h y hy
    injection h with h'
    rw [← h'] at hy
    cases hy
  | cons a rest ih =>
    intro ys h y hy
    rw [emapM] at h
    cases hf : f a with
    | error e => rw [hf] at h; cases h
    | ok b =>
      rw [hf] at h
      dsimp only at h
      cases hr : emapM f rest with
      | error e => rw [hr] at h; cases h
      | ok bs =>
        rw [hr] at h
        injection h with h'
        rw [← h'] at hy
        rcases List.mem_cons.mp hy with rfl | hy'
        · exact ⟨a, List.mem_cons_self a rest, hf⟩
        · obtain ⟨x, hx, hfx⟩ := ih hr y hy'
          exact ⟨x, List.mem_cons_of_mem a hx, hfx⟩

theorem channel_filter_partition (chs : List Channel) :
    (chs.filter Channel.isPosition).length +
      (chs.filter Channel.isRotation).length = chs.length := by
  induction chs with
  | nil => rfl
  | cons c rest ih =>
    cases c <;>
      simp [List.filter_cons, Channel.isPosition, Channel.isRotation] <;> omega

theorem parseChannelsLine_mismatch {tokens : List String} {t1 : String} {cnt : Int}
    (h1 : tokens.get? 1 = some t1) (h2 : parseIntStr t1 = some cnt)
    (h3 : ((tokens.drop 2).length : Int) ≠ cnt) :
    parseChannelsLine tokens = .error .parseError := by
  rw [parseChannelsLine.eq_def, h1]
  dsimp only
  rw [h2]
  dsimp only
  rw [if_pos h3]

theorem parseChannelsLine_ok {tokens : List String} {layout : BVHChannelLayout}
    (h : parseChannelsLine tokens = .ok layout) :
    ∃ t1, tokens.get? 1 = some t1 ∧
      parseIntStr t1 = some ((tokens.drop 2).length : Int) ∧
      layout.channel_count = (tokens.drop 2).length := by
  rw [parseChannelsLine.eq_def] at h
  cases hg : tokens.get? 1 with
  | none => rw [hg] at h; cases h
  | some t1 =>
    rw [hg] at h
    dsimp only at h
    cases hp : parseIntStr t1 with
    | none => rw [hp] at h; cases h
    | some cnt =>
      rw [hp] at h
      dsimp only at h
      by_cases hne : ((tokens.drop 2).length : Int) ≠ cnt
      · rw [if_pos hne] at h; cases h
      · rw [if_neg hne] at h
        push_neg at hne
        cases hc : omapM channelOfString (tokens.drop 2) with
        | none => rw [hc] at h; cases h
        | some chs =>
          rw [hc] at h
          injection h with h'
          refine ⟨t1, rfl, by rw [hp, ← hne], ?_⟩
          rw [← h']
          have hlen := omapM_some_length hc
          have hpart := channel_filter_partition chs
          simp only [BVHChannelLayout.channel_count, BVHChannelLayout.channels,
            BVHChannelLayout.fromBvhChannels, List.length_append]
          omega

theorem parseFrameRow_none {expected : Nat} {line : String}
    (h : omapM parseFloatStr (tokenize line) = none) :
    parseFrameRow expected line = .error .parseError := by
  rw [parseFrameRow.eq_def, h]

theorem parseFrameRow_wrong_count {expected : Nat} {line : String} {vals : List ℚ}
    (h : omapM parseFloatStr (tokenize line) = some vals)
    (hne : vals.length ≠ expected) :
    parseFrameRow expected line = .error .parseError := by
  rw [parseFrameRow.eq_def, h]
  dsimp only
  rw [if_pos hne]

theorem parseFrameRow_ok {expected : Nat} {line : String} {vals : List ℚ}
    (h : parseFrameRow expected line = .ok vals) : vals.length = expected := by
  rw [parseFrameRow.eq_def] at h
  cases hm : omapM parseFloatStr (tokenize line) with
  | none => rw [hm] at h; cases h
  | some vs =>
    rw [hm] at h
    dsimp only at h
    by_cases hne : vs.length ≠ expected
    · rw [if_pos hne] at h; cases h
    · rw [if_neg hne] at h
      injection h with h'
      rw [← h']
      push_neg at hne
      exact hne

theorem parseOffsetLine_bad {offset_tokens : List String}
    (h : omapM parseFloatStr offset_tokens = none) :
    parseOffsetLine offset_tokens = .error .parseError := by
  rw [parseOffsetLine.eq_def, h]

theorem parseMotionData_ok {hierarchy : ParsedHierarchy} {sections : BVHSections}
    {pm : ParsedMotion} (h : parseMotionData hierarchy sections = .ok pm) :
    (pm.frames.length : Int) = pm.frame_count ∧
    ∀ row ∈ pm.frames, row.length = expectedChannels pm.hierarchy.node_channels := by
  rw [parseMotionData.eq_def] at h
  dsimp only at h
  by_cases hlen : (sections.motion_lines.drop 1).length < 2
  · rw [if_pos hlen] at h; cases h
  rw [if_neg hlen] at h
  cases ht : tokenize ((sections.motion_lines.drop 1).headD "") with
  | nil => rw [ht] at h; cases h
  | cons t0 ttail =>
  cases ttail with
  | nil => rw [ht] at h; cases h
  | cons t1 trest =>
  rw [ht] at h
  dsimp only at h
  by_cases ht0 : t0 ≠ "Frames:"
  · rw [if_pos ht0] at h; cases h
  rw [if_neg ht0] at h
  cases hfc : parseIntStr t1 with
  | none => rw [hfc] at h; cases h
  | some frame_count =>
  rw [hfc] at h
  dsimp only at h
  cases hu : tokenize (((sections.motion_lines.drop 1).drop 1).headD "") with
  | nil => rw [hu] at h; cases h
  | cons u0 utail =>
  cases utail with
  | nil => rw [hu] at h; cases h
  | cons u1 urest =>
  cases urest with
  | nil => rw [hu] at h; cases h
  | cons u2 urest2 =>
  rw [hu] at h
  dsimp only at h
  by_cases hu01 : u0 ≠ "Frame" ∨ u1 ≠ "Time:"
  · rw [if_pos hu01] at h; cases h
  rw [if_neg hu01] at h
  cases hft : parseFloatStr u2 with
  | none => rw [hft] at h; cases h
  | some frame_time =>
  rw [hft] at h
  dsimp only at h
  cases hem : emapM (parseFrameRow (expectedChannels hierarchy.node_channels))
      (((sections.motion_lines.drop 1).drop 2).filter
        (fun l => String.mk (stripChars l.data) ≠ "")) with
  | error e => rw [hem] at h; cases h
  | ok frames =>
  rw [hem] at h
  dsimp only at h
  by_cases hfl : (frames.length : Int) ≠ frame_count
  · rw [if_pos hfl] at h; cases h
  rw [if_neg hfl] at h
  push_neg at hfl
  injection h with h'
  rw [← h']
  dsimp only
  refine ⟨hfl, ?_⟩
  intro row hrow
  obtain ⟨x, hx, hfx⟩ := emapM_ok_mem hem row hrow
  exact parseFrameRow_ok hfx

/-- C5 (amended): the loader raises ParseError for the malformed lines it
inspects — a CHANNELS line whose declared count differs from the number of
names is a ParseError and a successful CHANNELS parse keeps exactly the
declared number of channels (no truncation or padding; the spec example
"CHANNELS 3 Xposition Yposition" raises); a motion row with a non-numeric
token or the wrong value count is a ParseError, as is a non-numeric OFFSET
token, and a successful motion parse has exactly frame_count rows each of
the full channel width.  (The original "every malformed line" phrasing
fails: unknown hierarchy keywords are silently ignored, a ROOT/JOINT line
missing its name raises IndexError, and a wrong-arity OFFSET raises
ValueError — see the counterexample.) -/
theorem C5_parse_error_detection :
    (∀ (tokens : List String) (t1 : String) (cnt : Int),
      tokens.get? 1 = some t1 → parseIntStr t1 = some cnt →
      ((tokens.drop 2).length : Int) ≠ cnt →
      parseChannelsLine tokens = .error .parseError) ∧
    (∀ (tokens : List String) (layout : BVHChannelLayout),
      parseChannelsLine tokens = .ok layout →
      ∃ t1, tokens.get? 1 = some t1 ∧
        parseIntStr t1 = some ((tokens.drop 2).length : Int) ∧
        layout.channel_count = (tokens.drop 2).length) ∧
    (parseChannelsLine (tokenize "CHANNELS 3 Xposition Yposition") =
      .error .parseError) ∧
    (∀ (expected : Nat) (line : String),
      omapM parseFloatStr (tokenize line) = none →
      parseFrameRow expected line = .error .parseError) ∧
    (∀ (expected : Nat) (line : String) (vals : List ℚ),
      omapM parseFloatStr (tokenize line) = some vals → vals.length ≠ expected →
      parseFrameRow expected line = .error .parseError) ∧
    (∀ (offset_tokens : List String),
      omapM parseFloatStr offset_tokens = none →
      parseOffsetLine offset_tokens = .error .parseError) ∧
    (∀ (hierarchy : ParsedHierarchy) (sections : BVHSections) (pm : ParsedMotion),
      parseMotionData hierarchy sections = .ok pm →
      (pm.frames.length : Int) = pm.frame_count ∧
      ∀ row ∈ pm.frames, row.length = expectedChannels pm.hierarchy.node_channels) := by
  refine ⟨?_, ?_, ?_, ?_, ?_, ?_, ?_⟩
  · exact fun tokens t1 cnt h1 h2 h3 => parseChannelsLine_mismatch h1 h2 h3
  · exact fun tokens layout h => parseChannelsLine_ok h
  · rfl
  · exact fun expected line h => parseFrameRow_none h
  · exact fun expected line vals h hne => parseFrameRow_wrong_count h hne
  · exact fun offset_tokens h => parseOffsetLine_bad h
  · exact fun hierarchy sections pm h => parseMotionData_ok h

/-- C5 counterexample: three malformed hierarchy lines that do not raise
ParseError — an unknown keyword is silently ignored, a ROOT line missing its
name token raises IndexError, and an OFFSET line with only two values raises
ValueError (via the Node shape check). -/
theorem C5_counterexample :
    hierStep ⟨[], [], [], none⟩ "FROBNICATE 1" = .ok ⟨[], [], [], none⟩ ∧
    hierStep ⟨[], [], [], none⟩ "ROOT" = .error .indexError ∧
    hierStep ⟨[⟨"a", none, zeroOffset⟩], [], ["a"], some "a"⟩ "OFFSET 1.0 2.0" =
      .error .valueError := by
  refine ⟨rfl, rfl, rfl⟩

/-- Witness instantiating `C5_parse_error_detection` on a concrete motion
row with too few values. -/
theorem C5_witness :
    omapM parseFloatStr (tokenize "1.0 2.0 3.0") = some [1, 2, 3] ∧
    ([(1 : ℚ), 2, 3].length ≠ 6) ∧
    parseFrameRow 6 "1.0 2.0 3.0" = .error .parseError := by
  refine ⟨by decide, by decide, ?_⟩
  exact C5_parse_error_detection.2.2.2.2.1 6 "1.0 2.0 3.0" [1, 2, 3]
    (by decide) (by decide)

/-! ### C7: forward kinematics -/

theorem dlook_some_mem_keys {m : List (String × α)} {k : String} {v : α}
    (h : dlook m k = some v) : k ∈ dkeys m := by
  have := mem_of_dlook h
  simpa [dkeys] using List.mem_map_of_mem Prod.fst this

theorem dlook_eq_of_mem_nodup {m : List (String × α)} (hnd : (dkeys m).Nodup)
    {k : String} {v : α} (h : (k, v) ∈ m) : dlook m k = some v := by
  induction m with
  | nil => cases h
  | cons p rest ih =>
    obtain ⟨k', v'⟩ := p
    simp only [dkeys, List.map_cons, List.nodup_cons] at hnd
    rcases List.mem_cons.mp h with heq | hmem
    · rw [Prod.mk.injEq] at heq
      rw [dlook, if_pos heq.1.symm, heq.2]
    · have hk : k' ≠ k := by
        intro hkk
        subst hkk
        exact hnd.1 (by
          simpa [dkeys] using List.mem_map_of_mem Prod.fst hmem)
      rw [dlook, if_neg hk]
      exact ih hnd.2 hmem

theorem dlook_dinsert_self {m : List (String × α)} {k : String} {v : α} :
    dlook (dinsert m k v) k = some v := by
  induction m with
  | nil => rw [dinsert, dlook, if_pos rfl]
  | cons p rest ih =>
    obtain ⟨k', v'⟩ := p
    rw [dinsert]
    by_cases hk : k' = k
    · rw [if_pos hk, dlook, if_pos rfl]
    · rw [if_neg hk, dlook, if_neg hk]
      exact ih

theorem dlook_dinsert_ne {m : List (String × α)} {k k' : String} {v : α}
    (h : k' ≠ k) : dlook (dinsert m k v) k' = dlook m k' := by
  induction m with
  | nil =>
    show (if k = k' then some v else dlook ([] : List (String × α)) k') =
      dlook ([] : List (String × α)) k'
    rw [if_neg (fun hh => h hh.symm)]
  | cons p rest ih =>
    obtain ⟨k0, v0⟩ := p
    rw [dinsert]
    by_cases hk : k0 = k
    · rw [if_pos hk]
      subst hk
      rw [dlook, dlook]
      rw [if_neg (fun hh => h hh.symm), if_neg (fun hh => h hh.symm)]
    · rw [if_neg hk, dlook, dlook]
      by_cases hk0 : k0 = k'
      · rw [if_pos hk0, if_pos hk0]
      · rw [if_neg hk0, if_neg hk0]
        exact ih

theorem mem_dkeys_dinsert {m : List (String × α)} {k k' : String} {v : α} :
    k' ∈ dkeys (dinsert m k v) ↔ k' ∈ dkeys m ∨ k' = k := by
  induction m with
  | nil => simp [dinsert, dkeys]
  | cons p rest ih =>
    obtain ⟨k0, v0⟩ := p
    rw [dinsert]
    by_cases hk : k0 = k
    · rw [if_pos hk]
      subst hk
      simp only [dkeys, List.map_cons, List.mem_cons]
      tauto
    · rw [if_neg hk]
      simp only [dkeys, List.map_cons, List.mem_cons] at ih ⊢
      tauto

theorem nodup_dkeys_dinsert {m : List (String × α)} {k : String} {v : α}
    (h : (dkeys m).Nodup) : (dkeys (dinsert m k v)).Nodup := by
  induction m with
  | nil => simp [dinsert, dkeys]
  | cons p rest ih =>
    obtain ⟨k0, v0⟩ := p
    simp only [dkeys, List.map_cons, List.nodup_cons] at h
    rw [dinsert]
    by_cases hk : k0 = k
    · rw [if_pos hk]
      subst hk
      simp only [dkeys, List.map_cons, List.nodup_cons]
      exact h
    · rw [if_neg hk]
      simp only [dkeys, List.map_cons, List.nodup_cons]
      constructor
      · intro hmem
        rcases mem_dkeys_dinsert.mp hmem with hm | he
        · exact h.1 hm
        · exact hk he
      · exact ih h.2

theorem dupdate_nil {a : List (String × α)} : dupdate a [] = a := rfl

theorem dupdate_cons {a r : List (String × α)} {p : String × α} :
    dupdate a (p :: r) = dupdate (dinsert a p.1 p.2) r := rfl

theorem dlook_dupdate_not_mem {r : List (String × α)} {k : String}
    (h : k ∉ dkeys r) : ∀ a, dlook (dupdate a r) k = dlook a k := by
  induction r with
  | nil => intro a; rfl
  | cons p rest ih =>
    intro a
    obtain ⟨k0, v0⟩ := p
    simp only [dkeys, List.map_cons, List.mem_cons, not_or] at h
    rw [dupdate_cons, ih (by exact h.2), dlook_dinsert_ne h.1]

theorem dlook_dupdate_mem {r : List (String × α)} {k : String} {v : α}
    (hnd : (dkeys r).Nodup) (h : dlook r k = some v) :
    ∀ a, dlook (dupdate a r) k = some v := by
  induction r with
  | nil => cases h
  | cons p rest ih =>
    intro a
    obtain ⟨k0, v0⟩ := p
    simp only [dkeys, List.map_cons, List.nodup_cons] at hnd
    rw [dlook] at h
    by_cases hk : k0 = k
    · rw [if_pos hk] at h
      injection h with hv
      subst hk
      rw [dupdate_cons, dlook_dupdate_not_mem hnd.1, ← hv]
      exact dlook_dinsert_self
    · rw [if_neg hk] at h
      rw [dupdate_cons]
      exact ih hnd.2 h _

theorem mem_dkeys_dupdate {r : List (String × α)} {k : String} :
    ∀ a, k ∈ dkeys (dupdate a r) ↔ k ∈ dkeys a ∨ k ∈ dkeys r := by
  induction r with
  | nil => intro a; simp [dupdate_nil, dkeys]
  | cons p rest ih =>
    intro a
    obtain ⟨k0, v0⟩ := p
    rw [dupdate_cons, ih]
    simp only [mem_dkeys_dinsert]
    simp only [dkeys, List.map_cons, List.mem_cons]
    tauto

theorem nodup_dkeys_dupdate {r : List (String × α)} :
    ∀ a, (dkeys a).Nodup → (dkeys (dupdate a r)).Nodup := by
  induction r with
  | nil => intro a h; exact h
  | cons p rest ih =>
    intro a h
    rw [dupdate_cons]
    exact ih _ (nodup_dkeys_dinsert h)

theorem mem_get_children {t : KinematicTree} {name : String} {c : Node}
    (h : c ∈ t.get_children name) :
    c ∈ dvalues t.nodes ∧ c.parent_name = some name := by
  rw [KinematicTree.get_children] at h
  have := List.mem_filter.mp h
  exact ⟨this.1, by simpa using this.2⟩

theorem dlook_of_value_aligned {m : List (String × Node)}
    (hnd : (dkeys m).Nodup) (halign : ∀ p ∈ m, (p.2).name = p.1)
    {c : Node} (h : c ∈ dvalues m) : dlook m c.name = some c := by
  rw [dvalues] at h
  obtain ⟨p, hp, hpc⟩ := List.mem_map.mp h
  obtain ⟨pk, pv⟩ := p
  dsimp only at hpc
  subst hpc
  have hk : pk = pv.name := (halign (pk, pv) hp).symm
  subst hk
  exact dlook_eq_of_mem_nodup hnd hp

theorem get_children_names_nodup {t : KinematicTree}
    (hnd : (dkeys t.nodes).Nodup) (halign : ∀ p ∈ t.nodes, (p.2).name = p.1)
    (name : String) : ((t.get_children name).map Node.name).Nodup := by
  have h1 : ((dvalues t.nodes).map Node.name).Nodup := by
    have he : (dvalues t.nodes).map Node.name = dkeys t.nodes := by
      rw [dvalues, dkeys, List.map_map]
      exact List.map_congr_left (fun p hp => halign p hp)
    rw [he]
    exact hnd
  have hsub : List.Sublist ((t.get_children name).map Node.name)
      ((dvalues t.nodes).map Node.name) :=
    List.Sublist.map Node.name (List.filter_sublist _)
  exact h1.sublist hsub

theorem child_dist {m : List (String × Node)} (hnd : (dkeys m).Nodup)
    (halign : ∀ p ∈ m, (p.2).name = p.1) {name : String} {d : Nat}
    (hdist : distToRoot m name m.length = some d)
    {c : Node} (hcv : c ∈ dvalues m) (hcp : c.parent_name = some name) :
    distToRoot m c.name m.length = some (d + 1) := by
  have hlook := dlook_of_value_aligned hnd halign hcv
  have h1 : distToRoot m c.name (m.length + 1) = some (d + 1) := by
    rw [dist_step_succ hlook hcp, hdist]
    rfl
  have hdl := dist_lt_length hnd hdist
  exact dist_mono (m.length + 1) c.name (d + 1) m.length h1 (by omega)

theorem gpfr_fold_spec {md : MotionData} {scale : ℝ}
    {fuel : Nat} {name : String} {d : Nat}
    {parentPos : List (ℝ × ℝ × ℝ)} {rotation : List Quat}
    (hdist : distToRoot md.kinematic_tree.nodes name
      md.kinematic_tree.nodes.length = some d)
    (hrec : ∀ c ∈ md.kinematic_tree.get_children name,
        ∃ r, gpfrAux md scale fuel
            (childWorld parentPos rotation c.offset scale) c.name rotation =
          some r ∧
          (dlook md.rotations c.name = none → r = []) ∧
          (∀ rows', dlook md.rotations c.name = some rows' →
            dlook r c.name =
              some (childWorld parentPos rotation c.offset scale) ∧
            (dkeys r).Nodup ∧
            (∀ k ∈ dkeys r, k = c.name ∨
              ∃ dk, distToRoot md.kinematic_tree.nodes k
                md.kinematic_tree.nodes.length = some dk ∧ d + 1 < dk)))
    (hcdist : ∀ c ∈ md.kinematic_tree.get_children name,
        distToRoot md.kinematic_tree.nodes c.name
          md.kinematic_tree.nodes.length = some (d + 1)) :
    ∀ (cs : List Node) (acc : List (String × List (ℝ × ℝ × ℝ))),
      (∀ c ∈ cs, c ∈ md.kinematic_tree.get_children name) →
      (cs.map Node.name).Nodup →
      (dkeys acc).Nodup →
      dlook acc name = some parentPos →
      (∀ k ∈ dkeys acc, k = name ∨
        ∃ dk, distToRoot md.kinematic_tree.nodes k
          md.kinematic_tree.nodes.length = some dk ∧ d < dk) →
      ∃ out,
        cs.foldl
          (fun acc c =>
            match acc with
            | none => none
            | some a =>
              (gpfrAux md scale fuel
                  (childWorld parentPos rotation c.offset scale) c.name
                  rotation).map
                (fun r =>
                  dupdate
                    (dinsert a c.name
                      (childWorld parentPos rotation c.offset scale)) r))
          (some acc) = some out ∧
        (dkeys out).Nodup ∧
        dlook out name = some parentPos ∧
        (∀ k ∈ dkeys out, k = name ∨
          ∃ dk, distToRoot md.kinematic_tree.nodes k
            md.kinematic_tree.nodes.length = some dk ∧ d < dk) ∧
        (∀ k dk, distToRoot md.kinematic_tree.nodes k
            md.kinematic_tree.nodes.length = some dk → dk ≤ d + 1 →
          k ∉ cs.map Node.name → dlook out k = dlook acc k) ∧
        (∀ c ∈ cs, dlook out c.name =
          some (childWorld parentPos rotation c.offset scale)) := by
  intro cs
  induction cs with
  | nil =>
    intro acc hcs hnodup haccnd haccname haccdepth
    exact ⟨acc, rfl, haccnd, haccname, haccdepth,
      fun k dk _ _ _ => rfl, by simp⟩
  | cons c cs ih =>
    intro acc hcs hnodup haccnd haccname haccdepth
    have hc : c ∈ md.kinematic_tree.get_children name :=
      hcs c (List.mem_cons_self c cs)
    obtain ⟨r, hr, hrnone, hrsome⟩ := hrec c hc
    have hcdist_c := hcdist c hc
    have hname_ne : name ≠ c.name := by
      intro he
      rw [← he, hdist] at hcdist_c
      injection hcdist_c with h'
      omega
    have hrfacts : (dkeys r).Nodup ∧
        (∀ k ∈ dkeys r, k = c.name ∨
          ∃ dk, distToRoot md.kinematic_tree.nodes k
            md.kinematic_tree.nodes.length = some dk ∧ d + 1 < dk) ∧
        (dlook r c.name =
          some (childWorld parentPos rotation c.offset scale) ∨ r = []) := by
      cases hcrows : dlook md.rotations c.name with
      | none =>
        have h0 := hrnone hcrows
        subst h0
        exact ⟨by simp [dkeys], by simp [dkeys], Or.inr rfl⟩
      | some rows' =>
        obtain ⟨h1, h2, h3⟩ := hrsome rows' hcrows
        exact ⟨h2, h3, Or.inl h1⟩
    have hnotin : ∀ k dk, distToRoot md.kinematic_tree.nodes k
        md.kinematic_tree.nodes.length = some dk → dk ≤ d + 1 →
        k ≠ c.name → k ∉ dkeys r := by
      intro k dk hkd hle hne hmem
      rcases hrfacts.2.1 k hmem with he | ⟨dk', hk', hlt⟩
      · exact hne he
      · rw [hkd] at hk'
        injection hk' with h'
        omega
    have hacc'nd : (dkeys (dupdate (dinsert acc c.name
        (childWorld parentPos rotation c.offset scale)) r)).Nodup :=
      nodup_dkeys_dupdate _ (nodup_dkeys_dinsert haccnd)
    have hacc'name : dlook (dupdate (dinsert acc c.name
        (childWorld parentPos rotation c.offset scale)) r) name =
        some parentPos := by
      rw [dlook_dupdate_not_mem (hnotin name d hdist (by omega) hname_ne),
        dlook_dinsert_ne hname_ne]
      exact haccname
    have hacc'c : dlook (dupdate (dinsert acc c.name
        (childWorld parentPos rotation c.offset scale)) r) c.name =
        some (childWorld parentPos rotation c.offset scale) := by
      rcases hrfacts.2.2 with hrlook | hr0
      · exact dlook_dupdate_mem hrfacts.1 hrlook _
      · subst hr0
        rw [dupdate_nil]
        exact dlook_dinsert_self
    have hacc'depth : ∀ k ∈ dkeys (dupdate (dinsert acc c.name
        (childWorld parentPos rotation c.offset scale)) r),
        k = name ∨ ∃ dk, distToRoot md.kinematic_tree.nodes k
          md.kinematic_tree.nodes.length = some dk ∧ d < dk := by
      intro k hk
      rcases (mem_dkeys_dupdate _).mp hk with hk' | hkr
      · rcases mem_dkeys_dinsert.mp hk' with hka | hkc
        · exact haccdepth k hka
        · exact Or.inr ⟨d + 1, hkc ▸ hcdist_c, by omega⟩
      · rcases hrfacts.2.1 k hkr with he | ⟨dk, hdk, hlt⟩
        · exact Or.inr ⟨d + 1, he ▸ hcdist_c, by omega⟩
        · exact Or.inr ⟨dk, hdk, by omega⟩
    have hstep_pres : ∀ k dk, distToRoot md.kinematic_tree.nodes k
        md.kinematic_tree.nodes.length = some dk → dk ≤ d + 1 →
        k ≠ c.name →
        dlook (dupdate (dinsert acc c.name
          (childWorld parentPos rotation c.offset scale)) r) k =
        dlook acc k := by
      intro k dk hkd hle hne
      rw [dlook_dupdate_not_mem (hnotin k dk hkd hle hne),
        dlook_dinsert_ne hne]
    have hcs' : ∀ c' ∈ cs, c' ∈ md.kinematic_tree.get_children name :=
      fun c' hc' => hcs c' (List.mem_cons_of_mem c hc')
    rw [List.map_cons] at hnodup
    have hnodup' := (List.nodup_cons.mp hnodup).2
    have hcnotin : c.name ∉ cs.map Node.name := (List.nodup_cons.mp hnodup).1
    obtain ⟨out, hout, houtnd, houtname, houtdepth, houtpres, houtchild⟩ :=
      ih _ hcs' hnodup' hacc'nd hacc'name hacc'depth
    refine ⟨out, ?_, houtnd, houtname, houtdepth, ?_, ?_⟩
    · rw [List.foldl_cons]
      have hstep :
          (match some acc with
            | none => none
            | some a =>
              (gpfrAux md scale fuel
                  (childWorld parentPos rotation c.offset scale) c.name
                  rotation).map
                (fun r =>
                  dupdate
                    (dinsert a c.name
                      (childWorld parentPos rotation c.offset scale)) r)) =
          some (dupdate (dinsert acc c.name
            (childWorld parentPos rotation c.offset scale)) r) := by
        dsimp only
        rw [hr]
        rfl
      rw [hstep]
      exact hout
    · intro k dk hkd hle hkn
      simp only [List.map_cons, List.mem_cons, not_or] at hkn
      rw [houtpres k dk hkd hle hkn.2]
      exact hstep_pres k dk hkd hle hkn.1
    · intro c0 hc0
      rcases List.mem_cons.mp hc0 with rfl | hc0'
      · rw [houtpres c0.name (d + 1) hcdist_c (by omega) hcnotin]
        exact hacc'c
      · exact houtchild c0 hc0'

theorem gpfr_spec {md : MotionData} {scale : ℝ}
    (hnd : (dkeys md.kinematic_tree.nodes).Nodup)
    (halign : ∀ p ∈ md.kinematic_tree.nodes, (p.2).name = p.1) :
    ∀ (fuel : Nat) (name : String) (d : Nat) (parentPos : List (ℝ × ℝ × ℝ))
      (accum : List Quat),
      distToRoot md.kinematic_tree.nodes name
        md.kinematic_tree.nodes.length = some d →
      md.kinematic_tree.nodes.length ≤ fuel + d →
      ∃ out, gpfrAux md scale fuel parentPos name accum = some out ∧
        (dlook md.rotations name = none → out = []) ∧
        (∀ rows, dlook md.rotations name = some rows →
          dlook out name = some parentPos ∧
          (dkeys out).Nodup ∧
          (∀ k ∈ dkeys out, k = name ∨
            ∃ dk, distToRoot md.kinematic_tree.nodes k
              md.kinematic_tree.nodes.length = some dk ∧ d < dk) ∧
          (∀ c ∈ md.kinematic_tree.get_children name,
            dlook out c.name =
              some (childWorld parentPos (frameRot accum rows) c.offset
                scale))) := by
  intro fuel
  induction fuel with
  | zero =>
    intro name d parentPos accum hdist hfuel
    exact absurd hfuel (by have := dist_lt_length hnd hdist; omega)
  | succ fuel ih =>
    intro name d parentPos accum hdist hfuel
    rw [gpfrAux]
    cases hrows : dlook md.rotations name with
    | none =>
      refine ⟨[], rfl, fun _ => rfl, fun rows hr => ?_⟩
      cases hr
    | some rows =>
      have hchild_dist : ∀ c ∈ md.kinematic_tree.get_children name,
          distToRoot md.kinematic_tree.nodes c.name
            md.kinematic_tree.nodes.length = some (d + 1) := by
        intro c hc
        obtain ⟨hcv, hcp⟩ := mem_get_children hc
        exact child_dist hnd halign hdist hcv hcp
      have hrec : ∀ c ∈ md.kinematic_tree.get_children name,
          ∃ r, gpfrAux md scale fuel
              (childWorld parentPos (frameRot accum rows) c.offset scale)
              c.name (frameRot accum rows) = some r ∧
            (dlook md.rotations c.name = none → r = []) ∧
            (∀ rows', dlook md.rotations c.name = some rows' →
              dlook r c.name =
                some (childWorld parentPos (frameRot accum rows) c.offset
                  scale) ∧
              (dkeys r).Nodup ∧
              (∀ k ∈ dkeys r, k = c.name ∨
                ∃ dk, distToRoot md.kinematic_tree.nodes k
                  md.kinematic_tree.nodes.length = some dk ∧ d + 1 < dk)) := by
        intro c hc
        obtain ⟨r, hr, hrnone, hrsome⟩ :=
          ih c.name (d + 1)
            (childWorld parentPos (frameRot accum rows) c.offset scale)
            (frameRot accum rows) (hchild_dist c hc) (by omega)
        refine ⟨r, hr, hrnone, fun rows' hrows' => ?_⟩
        obtain ⟨h1, h2, h3, _⟩ := hrsome rows' hrows'
        exact ⟨h1, h2, h3⟩
      have hcnames := get_children_names_nodup hnd halign name
      obtain ⟨out, hout, houtnd, houtname, houtdepth, _, houtchild⟩ :=
        gpfr_fold_spec hdist hrec hchild_dist
          (md.kinematic_tree.get_children name) [(name, parentPos)]
          (fun c hc => hc) hcnames
          (by simp [dkeys])
          (by rw [dlook, if_pos rfl])
          (by
            intro k hk
            simp only [dkeys, List.map_cons, List.map_nil,
              List.mem_singleton] at hk
            exact Or.inl hk)
      refine ⟨out, hout, ?_, ?_⟩
      · intro h0
        cases h0
      · intro rows' hr'
        injection hr' with he
        subst he
        exact ⟨houtname, houtnd, houtdepth, houtchild⟩

/-- C7: forward kinematics.  A start node without a stored rotation stream
yields the empty map; otherwise (on a well-formed tree) the call terminates,
maps the node to the passed parent world position, maps each child to that
position plus the composed world orientation applied to the child's rest
offset times the scale, and every node appears at most once in the result. -/
theorem C7_forward_kinematics :
    (∀ (md : MotionData) (parentPos : List (ℝ × ℝ × ℝ)) (name : String)
      (accum : List Quat) (scale : ℝ),
      dlook md.rotations name = none →
      getPositionsFromRotations md parentPos name accum scale = some []) ∧
    (∀ (md : MotionData) (parentPos : List (ℝ × ℝ × ℝ)) (name : String)
      (accum : List Quat) (scale : ℝ) (rows : List (List ℝ)) (d : Nat),
      (dkeys md.kinematic_tree.nodes).Nodup →
      (∀ p ∈ md.kinematic_tree.nodes, (p.2).name = p.1) →
      distToRoot md.kinematic_tree.nodes name
        md.kinematic_tree.nodes.length = some d →
      dlook md.rotations name = some rows →
      ∃ out, getPositionsFromRotations md parentPos name accum scale =
          some out ∧
        dlook out name = some parentPos ∧
        (dkeys out).Nodup ∧
        (∀ c ∈ md.kinematic_tree.get_children name,
          dlook out c.name =
            some (childWorld parentPos (frameRot accum rows) c.offset
              scale))) := by
  constructor
  · intro md parentPos name accum scale h
    rw [getPositionsFromRotations, KinematicTree.len, gpfrAux, h]
  · intro md parentPos name accum scale rows d hnd halign hdist hrows
    obtain ⟨out, hout, _, hsome⟩ :=
      gpfr_spec hnd halign (md.kinematic_tree.len + 1) name d parentPos accum
        hdist (by
          have := dist_lt_length hnd hdist
          rw [KinematicTree.len]
          omega)
    obtain ⟨h1, h2, _, h4⟩ := hsome rows hrows
    exact ⟨out, hout, h1, h2, h4⟩

/-- Witness instantiating `C7_forward_kinematics` on a one-node tree with a
single identity-rotation frame, plus the no-rotation case on a node without
rotation data. -/
theorem C7_witness :
    (dkeys (⟨⟨[("a", ⟨"a", none, zeroOffset⟩)]⟩, [],
        [("a", [[0, 0, 0, 1]])], mkRat 1 30, 1⟩ :
        MotionData).kinematic_tree.nodes).Nodup ∧
    distToRoot [("a", (⟨"a", none, zeroOffset⟩ : Node))] "a" 1 = some 0 ∧
    (∃ out, getPositionsFromRotations
        (⟨⟨[("a", ⟨"a", none, zeroOffset⟩)]⟩, [],
          [("a", [[0, 0, 0, 1]])], mkRat 1 30, 1⟩ : MotionData)
        [((0 : ℝ), (0 : ℝ), (0 : ℝ))] "a" [Quat.one] 1 = some out ∧
      dlook out "a" = some [((0 : ℝ), (0 : ℝ), (0 : ℝ))] ∧
      (dkeys out).Nodup ∧
      (∀ c ∈ (⟨⟨[("a", ⟨"a", none, zeroOffset⟩)]⟩, [],
          [("a", [[0, 0, 0, 1]])], mkRat 1 30, 1⟩ :
          MotionData).kinematic_tree.get_children "a",
        dlook out c.name =
          some (childWorld [((0 : ℝ), (0 : ℝ), (0 : ℝ))]
            (frameRot [Quat.one] [[0, 0, 0, 1]]) c.offset 1))) ∧
    getPositionsFromRotations
      (⟨⟨[("a", ⟨"a", none, zeroOffset⟩)]⟩, [],
        [("a", [[0, 0, 0, 1]])], mkRat 1 30, 1⟩ : MotionData)
      [((0 : ℝ), (0 : ℝ), (0 : ℝ))] "b" [Quat.one] 1 = some [] := by
  refine ⟨by decide, by decide, ?_, ?_⟩
  · exact C7_forward_kinematics.2
      (⟨⟨[("a", ⟨"a", none, zeroOffset⟩)]⟩, [],
        [("a", [[0, 0, 0, 1]])], mkRat 1 30, 1⟩ : MotionData)
      [((0 : ℝ), (0 : ℝ), (0 : ℝ))] "a" [Quat.one] 1 [[0, 0, 0, 1]] 0
      (by decide) (by decide) (by decide) rfl
  · exact C7_forward_kinematics.1
      (⟨⟨[("a", ⟨"a", none, zeroOffset⟩)]⟩, [],
        [("a", [[0, 0, 0, 1]])], mkRat 1 30, 1⟩ : MotionData)
      [((0 : ℝ), (0 : ℝ), (0 : ℝ))] "b" [Quat.one] 1 rfl

/-! ### C4: saver leaf emission -/

/-- C4: a non-root leaf with siblings is emitted (default layouts) as a
JOINT block with OFFSET and CHANNELS wrapping a zero-offset End Site and is
appended to the motion column order, while a non-root leaf without siblings
becomes a bare End Site block — OFFSET only, no CHANNELS line — and leaves
the column order unchanged; consequently a sibling-bearing leaf survives a
save/load round trip of the hierarchy as a JOINT with an `_EndSite` child,
while a sibling-free leaf is collapsed into its parent's End Site. -/
theorem C4_leaf_emission :
    (∀ (tree : KinematicTree) (fuel : Nat) (name : String)
      (order : List String) (node : Node),
      tree.get_node name = .ok node →
      tree.get_children name = [] →
      node.is_root = false →
      tree.has_siblings name = .ok true →
      buildNodesRec tree [] (fuel + 1) name order =
        .ok (["JOINT " ++ node.name, "\x7b",
          "  OFFSET " ++ fmtF6 (node.offset.getD 0 0) ++ " " ++
            fmtF6 (node.offset.getD 1 0) ++ " " ++
            fmtF6 (node.offset.getD 2 0),
          "  CHANNELS 3 Zrotation Xrotation Yrotation",
          "  End Site", "  \x7b",
          "    OFFSET 0.000000 0.000000 0.000000", "  \x7d", "\x7d"],
          order ++ [node.name])) ∧
    (∀ (tree : KinematicTree) (fuel : Nat) (name : String)
      (order : List String) (node : Node),
      tree.get_node name = .ok node →
      tree.get_children name = [] →
      node.is_root = false →
      tree.has_siblings name = .ok false →
      buildNodesRec tree [] (fuel + 1) name order =
        .ok (["End Site", "\x7b",
          "  OFFSET " ++ fmtF6 (node.offset.getD 0 0) ++ " " ++
            fmtF6 (node.offset.getD 1 0) ++ " " ++
            fmtF6 (node.offset.getD 2 0), "\x7d"],
          order)) ∧
    (∃ p h, buildHierarchyLines siblingLeafTree [] = .ok p ∧
      parseHierarchySection ⟨p.1, []⟩ = .ok h ∧
      dlook h.kinematic_tree.nodes "A" = some ⟨"A", some "R", [1, 0, 0]⟩ ∧
      h.kinematic_tree.get_children "A" =
        [⟨"A_EndSite", some "A", [0, 0, 0]⟩]) ∧
    (∃ p h, buildHierarchyLines chainLeafTree [] = .ok p ∧
      parseHierarchySection ⟨p.1, []⟩ = .ok h ∧
      "B" ∉ dkeys h.kinematic_tree.nodes ∧
      dlook h.kinematic_tree.nodes "A_EndSite" =
        some ⟨"A_EndSite", some "A", [0, 0, 1]⟩) := by
  refine ⟨?_, ?_, ?_, ?_⟩
  · intro tree fuel name order node hget hch hroot hsib
    rw [buildNodesRec, hget]
    dsimp only
    rw [getChannelLayoutForNode.eq_def, hget]
    dsimp only [dlook]
    rw [hroot]
    rw [hch]
    dsimp only [List.isEmpty]
    rw [if_neg (by decide : ¬(true = false))]
    rw [if_neg (by decide : ¬(false = true))]
    rw [hsib]
    dsimp only
    rfl
  · intro tree fuel name order node hget hch hroot hsib
    rw [buildNodesRec, hget]
    dsimp only
    rw [getChannelLayoutForNode.eq_def, hget]
    dsimp only [dlook]
    rw [hroot]
    rw [hch]
    dsimp only [List.isEmpty]
    rw [if_neg (by decide : ¬(true = false))]
    rw [if_neg (by decide : ¬(false = true))]
    rw [hsib]
    dsimp only
    rfl
  · exact ⟨_, _, rfl, rfl, by decide, by decide⟩
  · exact ⟨_, _, rfl, rfl, by decide, by decide⟩

/-- Witness instantiating `C4_leaf_emission` on the two concrete trees:
the sibling-bearing leaf `A` of `siblingLeafTree` and the sibling-free
leaf `B` of `chainLeafTree`. -/
theorem C4_witness :
    buildNodesRec siblingLeafTree [] 3 "A" [] =
      .ok (["JOINT A", "\x7b",
        "  OFFSET " ++ fmtF6 1 ++ " " ++ fmtF6 0 ++ " " ++ fmtF6 0,
        "  CHANNELS 3 Zrotation Xrotation Yrotation",
        "  End Site", "  \x7b",
        "    OFFSET 0.000000 0.000000 0.000000", "  \x7d", "\x7d"], ["A"]) ∧
    buildNodesRec chainLeafTree [] 3 "B" [] =
      .ok (["End Site", "\x7b",
        "  OFFSET " ++ fmtF6 0 ++ " " ++ fmtF6 0 ++ " " ++ fmtF6 1,
        "\x7d"], []) := by
  constructor
  · exact C4_leaf_emission.1 siblingLeafTree 2 "A" []
      ⟨"A", some "R", [1, 0, 0]⟩ (by decide) (by decide) (by decide)
      (by decide)
  · exact C4_leaf_emission.2.1 chainLeafTree 2 "B" []
      ⟨"B", some "A", [0, 0, 1]⟩ (by decide) (by decide) (by decide)
      (by decide)

/-! ### C9: saver ValueError conditions -/

/-- C9 (amended): at save time a declared position or rotation channel
without matching data raises ValueError, so does an empty motion block list,
and a successful extraction means every emitted node's declared channels
have data; but these are not the only ValueError situations — a rootless
tree raises ValueError before any data check, and an explicit channel
layout whose rotation channels are off the canonical six-order table raises
ValueError even with all data present. -/
theorem C9_save_value_errors :
    (∀ md : MotionData, md.kinematic_tree.root = none →
      ∀ layouts, saveCore md layouts = .error .valueError) ∧
    (∀ (md : MotionData) (name : String) (rest : List String)
      (layout : BVHChannelLayout)
      (layouts : List (String × BVHChannelLayout)),
      getChannelLayoutForNode md.kinematic_tree name layouts = .ok layout →
      layout.has_position_channels = true → md.has_positions name = false →
      extractBlocks md layouts (name :: rest) = .error .valueError) ∧
    (∀ (md : MotionData) (name : String) (rest : List String)
      (layout : BVHChannelLayout)
      (layouts : List (String × BVHChannelLayout)),
      getChannelLayoutForNode md.kinematic_tree name layouts = .ok layout →
      (layout.has_position_channels = true → md.has_positions name = true) →
      layout.has_rotation_channels = true → md.has_rotations name = false →
      extractBlocks md layouts (name :: rest) = .error .valueError) ∧
    (∀ (md : MotionData) (layouts : List (String × BVHChannelLayout))
      (order : List String) (blocks : List (List (List ℝ))),
      extractBlocks md layouts order = .ok blocks →
      ∀ name ∈ order, ∃ layout,
        getChannelLayoutForNode md.kinematic_tree name layouts = .ok layout ∧
        (layout.has_position_channels = true → md.has_positions name = true) ∧
        (layout.has_rotation_channels = true →
          md.has_rotations name = true)) ∧
    (∀ (md : MotionData) (layouts : List (String × BVHChannelLayout))
      (p : List String × List String),
      buildHierarchyLines md.kinematic_tree layouts = .ok p →
      extractBlocks md layouts p.2 = .ok [] →
      saveCore md layouts = .error .valueError) ∧
    (∀ (md : MotionData) (layouts : List (String × BVHChannelLayout))
      (p : List String × List String) (blocks : List (List (List ℝ))),
      buildHierarchyLines md.kinematic_tree layouts = .ok p →
      extractBlocks md layouts p.2 = .ok blocks → blocks ≠ [] →
      saveCore md layouts =
        .ok (p.1 ++ buildMotionInfoLines md, rowConcat blocks)) := by
  refine ⟨?_, ?_, ?_, ?_, ?_, ?_⟩
  · intro md hroot layouts
    rw [saveCore, buildHierarchyLines, hroot]
  · intro md name rest layout layouts hlay hpos hdata
    rw [extractBlocks, hlay]
    dsimp only
    rw [hpos, hdata]
    rw [if_pos (by decide : (true && !false) = true)]
  · intro md name rest layout layouts hlay hpos hrot hdata
    rw [extractBlocks, hlay]
    dsimp only
    cases hp : layout.has_position_channels with
    | true =>
      rw [hp] at hpos
      rw [hpos rfl]
      rw [if_neg (by decide : ¬((true && !true) = true))]
      rw [hrot, hdata]
      rw [if_pos (by decide : (true && !false) = true)]
    | false =>
      rw [if_neg (by simp : ¬((false && !md.has_positions name) = true))]
      rw [hrot, hdata]
      rw [if_pos (by decide : (true && !false) = true)]
  · intro md layouts order
    induction order with
    | nil =>
      intro blocks h name hname
      cases hname
    | cons name rest ih =>
      intro blocks h name' hname'
      rw [extractBlocks] at h
      cases hlay : getChannelLayoutForNode md.kinematic_tree name layouts with
      | error e => rw [hlay] at h; cases h
      | ok layout =>
        rw [hlay] at h
        dsimp only at h
        by_cases hc1 : (layout.has_position_channels &&
            !(md.has_positions name)) = true
        · rw [if_pos hc1] at h; cases h
        rw [if_neg hc1] at h
        by_cases hc2 : (layout.has_rotation_channels &&
            !(md.has_rotations name)) = true
        · rw [if_pos hc2] at h; cases h
        rw [if_neg hc2] at h
        cases hrb : (if layout.has_rotation_channels = true then
            (rotationOrderFromChannels layout.rotation_channels).map
              (fun o => [((dlook md.rotations name).getD []).map
                (asEulerDegRow o)])
          else .ok []) with
        | error e => rw [hrb] at h; cases h
        | ok rotBlocks =>
          rw [hrb] at h
          dsimp only at h
          cases hrest : extractBlocks md layouts rest with
          | error e => rw [hrest] at h; cases h
          | ok more =>
            rcases List.mem_cons.mp hname' with rfl | hmem
            · refine ⟨layout, hlay, ?_, ?_⟩
              · intro hpc
                rw [hpc] at hc1
                simp only [Bool.true_and, Bool.not_eq_true',
                  Bool.not_eq_true] at hc1
                simpa using hc1
              · intro hrc
                rw [hrc] at hc2
                simp only [Bool.true_and, Bool.not_eq_true',
                  Bool.not_eq_true] at hc2
                simpa using hc2
            · exact ih more hrest name' hmem
  · intro md layouts p hhier hext
    rw [saveCore, hhier]
    dsimp only
    rw [hext]
    dsimp only
    rw [if_pos (by decide : (List.isEmpty ([] : List (List (List ℝ)))) = true)]
  · intro md layouts p blocks hhier hext hne
    rw [saveCore, hhier]
    dsimp only
    rw [hext]
    dsimp only
    rw [if_neg ?_]
    intro hh
    exact hne (List.isEmpty_iff.mp hh)

/-- C9 counterexample: an explicit layout whose rotation channels are off
the canonical order table raises ValueError at save time even though the
node's declared rotation channels have data and motion data is present —
a ValueError situation beyond the two the claim allows. -/
theorem C9_counterexample :
    saveCore
      (⟨⟨[("a", ⟨"a", none, [0, 0, 0]⟩)]⟩, [], [("a", [[0, 0, 0, 1]])],
        mkRat 1 30, 1⟩ : MotionData)
      [("a", ⟨[], [.Xrotation, .Xrotation, .Yrotation]⟩)] =
      .error .valueError ∧
    (⟨⟨[("a", ⟨"a", none, [0, 0, 0]⟩)]⟩, [], [("a", [[0, 0, 0, 1]])],
        mkRat 1 30, 1⟩ : MotionData).has_rotations "a" = true ∧
    rotationOrderFromChannels [.Xrotation, .Xrotation, .Yrotation] =
      .error .valueError := by
  refine ⟨rfl, rfl, rfl⟩

/-- Witness instantiating `C9_save_value_errors` on an empty-tree
MotionData (root is `None`) and on a root with default-declared position
channels but no position data. -/
theorem C9_witness :
    (⟨⟨[]⟩, [], [], mkRat 1 30, 0⟩ : MotionData).kinematic_tree.root =
      none ∧
    saveCore (⟨⟨[]⟩, [], [], mkRat 1 30, 0⟩ : MotionData) [] =
      .error .valueError ∧
    extractBlocks
      (⟨⟨[("a", ⟨"a", none, [0, 0, 0]⟩)]⟩, [], [], mkRat 1 30, 0⟩ :
        MotionData) [] ["a"] = .error .valueError := by
  refine ⟨rfl, ?_, ?_⟩
  · exact C9_save_value_errors.1
      (⟨⟨[]⟩, [], [], mkRat 1 30, 0⟩ : MotionData) rfl []
  · exact C9_save_value_errors.2.1
      (⟨⟨[("a", ⟨"a", none, [0, 0, 0]⟩)]⟩, [], [], mkRat 1 30, 0⟩ :
        MotionData) "a" [] (BVHChannelLayout.fromRotationOrder .ZXY true)
      [] rfl rfl rfl

/-! ### C6: round trip -/

theorem fmtR_cast (q : ℚ) : fmtR ((q : ℝ)) = fmtE18 q := by
  rw [fmtR]
  have h : ∃ p : ℚ, ((p : ℚ) : ℝ) = ((q : ℝ)) := ⟨q, rfl⟩
  rw [dif_pos h]
  have hs : ((Classical.choose h : ℚ) : ℝ) = ((q : ℝ)) :=
    Classical.choose_spec h
  have he : Classical.choose h = q := by exact_mod_cast hs
  rw [he]

theorem fmtR_zero : fmtR (0 : ℝ) = "0.000000000000000000e+00" := by
  have h0 : ((0 : ℚ) : ℝ) = (0 : ℝ) := by norm_num
  rw [← h0, fmtR_cast]
  rfl

theorem fromQuatRow_one : fromQuatRow Quat.one.toRow = Quat.one := by
  show fromQuatRow [(0 : ℝ), 0, 0, 1] = Quat.one
  rw [fromQuatRow]
  dsimp only [List.getD, List.get?, Option.getD]
  norm_num [Real.sqrt_one, Quat.one]

theorem atan2_zero_one : atan2 0 1 = 0 := by
  rw [atan2]
  have h1 : (⟨1, 0⟩ : ℂ) = 1 := by
    apply Complex.ext <;> simp
  rw [h1, Complex.arg_one]

theorem asEulerRadRow_zxy_one : asEulerRadRow .ZXY Quat.one = [0, 0, 0] := by
  rw [asEulerRadRow]
  norm_num [Quat.one, atan2_zero_one, Real.arcsin_zero]

theorem asEulerDegRow_zxy_one :
    asEulerDegRow .ZXY Quat.one.toRow = [0, 0, 0] := by
  rw [asEulerDegRow, fromQuatRow_one, asEulerRadRow_zxy_one]
  norm_num

/-- C6 (amended): on a consistent BVH whose loaded data matches the saver's
default layouts, the round trip is exact on motion content — proven on the
zero-rotation instance: loading, saving (header and `%.18e` motion matrix),
and re-loading the saved file reproduce the same MotionData, so positions
and rotations agree within any tolerance.  (The general claim fails: the
default layouts declare rotation channels for every emitted node, so a
consistent position-only BVH loads but cannot be saved — see the
counterexample.) -/
theorem C6_round_trip :
    parseBvhContent zeroBvhText = .ok zeroMotionData ∧
    saveCore zeroMotionData [] =
      .ok (zeroSavedHeader, [[(0 : ℝ), 0, 0, 0, 0, 0, 0, 0, 0, 0, 0, 0]]) ∧
    savetxtText zeroSavedHeader
      [[(0 : ℝ), 0, 0, 0, 0, 0, 0, 0, 0, 0, 0, 0]] = zeroSavedText ∧
    parseBvhContent zeroSavedText = .ok zeroMotionData := by
  have hz : ((0 : ℚ) : ℝ) = (0 : ℝ) := by norm_num
  have hb : buildMotionData zeroParsedMotion = .ok zeroMotionData := by
    have hb0 : buildMotionData zeroParsedMotion = .ok
        ⟨exampleTree,
         [("Root", [[((0:ℚ):ℝ), ((0:ℚ):ℝ), ((0:ℚ):ℝ)]])],
         [("Root", [(fromEuler [.Z, .X, .Y]
                      [((0:ℚ):ℝ), ((0:ℚ):ℝ), ((0:ℚ):ℝ)]).toRow]),
          ("A", [(fromEuler [.Z, .X, .Y]
                   [((0:ℚ):ℝ), ((0:ℚ):ℝ), ((0:ℚ):ℝ)]).toRow]),
          ("B", [(fromEuler [.Z, .X, .Y]
                   [((0:ℚ):ℝ), ((0:ℚ):ℝ), ((0:ℚ):ℝ)]).toRow])],
         mkRat 33333 1000000, 1⟩ := by rfl
    rw [hb0, zeroMotionData]
    simp only [hz, fromEuler_zxy_zero]
  have hA : parseBvhContent zeroBvhText = .ok zeroMotionData := by
    have hs : splitIntoSections zeroBvhText = .ok
        ⟨["HIERARCHY", "ROOT Root", "\x7b", "OFFSET 0 0 0",
          "CHANNELS 6 Xposition Yposition Zposition Zrotation Xrotation Yrotation",
          "JOINT A", "\x7b", "OFFSET 1 0 0",
          "CHANNELS 3 Zrotation Xrotation Yrotation", "JOINT B", "\x7b",
          "OFFSET 0 1 0", "CHANNELS 3 Zrotation Xrotation Yrotation",
          "End Site", "\x7b", "OFFSET 0 0 1", "\x7d", "\x7d", "\x7d", "\x7d"],
         ["MOTION", "Frames: 1", "Frame Time: 0.033333",
          "0 0 0 0 0 0 0 0 0 0 0 0"]⟩ := by decide
    have hh : parseHierarchySection
        ⟨["HIERARCHY", "ROOT Root", "\x7b", "OFFSET 0 0 0",
          "CHANNELS 6 Xposition Yposition Zposition Zrotation Xrotation Yrotation",
          "JOINT A", "\x7b", "OFFSET 1 0 0",
          "CHANNELS 3 Zrotation Xrotation Yrotation", "JOINT B", "\x7b",
          "OFFSET 0 1 0", "CHANNELS 3 Zrotation Xrotation Yrotation",
          "End Site", "\x7b", "OFFSET 0 0 1", "\x7d", "\x7d", "\x7d", "\x7d"],
         ["MOTION", "Frames: 1", "Frame Time: 0.033333",
          "0 0 0 0 0 0 0 0 0 0 0 0"]⟩ = .ok exampleHierarchy := by decide
    have hm : parseMotionData exampleHierarchy
        ⟨["HIERARCHY", "ROOT Root", "\x7b", "OFFSET 0 0 0",
          "CHANNELS 6 Xposition Yposition Zposition Zrotation Xrotation Yrotation",
          "JOINT A", "\x7b", "OFFSET 1 0 0",
          "CHANNELS 3 Zrotation Xrotation Yrotation", "JOINT B", "\x7b",
          "OFFSET 0 1 0", "CHANNELS 3 Zrotation Xrotation Yrotation",
          "End Site", "\x7b", "OFFSET 0 0 1", "\x7d", "\x7d", "\x7d", "\x7d"],
         ["MOTION", "Frames: 1", "Frame Time: 0.033333",
          "0 0 0 0 0 0 0 0 0 0 0 0"]⟩ = .ok zeroParsedMotion := by decide
    rw [parseBvhContent, hs, except_bind_ok, hh, except_bind_ok, hm,
      except_bind_ok, hb]
  have hD : parseBvhContent zeroSavedText = .ok zeroMotionData := by
    have hs : splitIntoSections zeroSavedText = .ok
        ⟨["HIERARCHY", "ROOT Root", "\x7b",
          "OFFSET 0.000000 0.000000 0.000000",
          "CHANNELS 6 Xposition Yposition Zposition Zrotation Xrotation Yrotation",
          "JOINT A", "\x7b", "OFFSET 1.000000 0.000000 0.000000",
          "CHANNELS 3 Zrotation Xrotation Yrotation", "JOINT B", "\x7b",
          "OFFSET 0.000000 1.000000 0.000000",
          "CHANNELS 3 Zrotation Xrotation Yrotation",
          "End Site", "\x7b", "OFFSET 0.000000 0.000000 1.000000",
          "\x7d", "\x7d", "\x7d", "\x7d"],
         ["MOTION", "Frames: 1", "Frame Time: 0.033333",
          "0.000000000000000000e+00 0.000000000000000000e+00 0.000000000000000000e+00 0.000000000000000000e+00 0.000000000000000000e+00 0.000000000000000000e+00 0.000000000000000000e+00 0.000000000000000000e+00 0.000000000000000000e+00 0.000000000000000000e+00 0.000000000000000000e+00 0.000000000000000000e+00"]⟩ := by decide
    have hh : parseHierarchySection
        ⟨["HIERARCHY", "ROOT Root", "\x7b",
          "OFFSET 0.000000 0.000000 0.000000",
          "CHANNELS 6 Xposition Yposition Zposition Zrotation Xrotation Yrotation",
          "JOINT A", "\x7b", "OFFSET 1.000000 0.000000 0.000000",
          "CHANNELS 3 Zrotation Xrotation Yrotation", "JOINT B", "\x7b",
          "OFFSET 0.000000 1.000000 0.000000",
          "CHANNELS 3 Zrotation Xrotation Yrotation",
          "End Site", "\x7b", "OFFSET 0.000000 0.000000 1.000000",
          "\x7d", "\x7d", "\x7d", "\x7d"],
         ["MOTION", "Frames: 1", "Frame Time: 0.033333",
          "0.000000000000000000e+00 0.000000000000000000e+00 0.000000000000000000e+00 0.000000000000000000e+00 0.000000000000000000e+00 0.000000000000000000e+00 0.000000000000000000e+00 0.000000000000000000e+00 0.000000000000000000e+00 0.000000000000000000e+00 0.000000000000000000e+00 0.000000000000000000e+00"]⟩ = .ok exampleHierarchy := by decide
    have hm : parseMotionData exampleHierarchy
        ⟨["HIERARCHY", "ROOT Root", "\x7b",
          "OFFSET 0.000000 0.000000 0.000000",
          "CHANNELS 6 Xposition Yposition Zposition Zrotation Xrotation Yrotation",
          "JOINT A", "\x7b", "OFFSET 1.000000 0.000000 0.000000",
          "CHANNELS 3 Zrotation Xrotation Yrotation", "JOINT B", "\x7b",
          "OFFSET 0.000000 1.000000 0.000000",
          "CHANNELS 3 Zrotation Xrotation Yrotation",
          "End Site", "\x7b", "OFFSET 0.000000 0.000000 1.000000",
          "\x7d", "\x7d", "\x7d", "\x7d"],
         ["MOTION", "Frames: 1", "Frame Time: 0.033333",
          "0.000000000000000000e+00 0.000000000000000000e+00 0.000000000000000000e+00 0.000000000000000000e+00 0.000000000000000000e+00 0.000000000000000000e+00 0.000000000000000000e+00 0.000000000000000000e+00 0.000000000000000000e+00 0.000000000000000000e+00 0.000000000000000000e+00 0.000000000000000000e+00"]⟩ = .ok zeroParsedMotion := by decide
    rw [parseBvhContent, hs, except_bind_ok, hh, except_bind_ok, hm,
      except_bind_ok, hb]
  have hB : saveCore zeroMotionData [] =
      .ok (zeroSavedHeader, [[(0 : ℝ), 0, 0, 0, 0, 0, 0, 0, 0, 0, 0, 0]]) := by
    have he : extractBlocks zeroMotionData [] ["Root", "A", "B"] = .ok
        [[[(0 : ℝ), 0, 0]], [[(0 : ℝ), 0, 0]], [[(0 : ℝ), 0, 0]],
         [[(0 : ℝ), 0, 0]]] := by
      have he0 : extractBlocks zeroMotionData [] ["Root", "A", "B"] = .ok
          [[[(0 : ℝ), 0, 0]],
           List.map (asEulerDegRow .ZXY) [Quat.one.toRow],
           List.map (asEulerDegRow .ZXY) [Quat.one.toRow],
           List.map (asEulerDegRow .ZXY) [Quat.one.toRow]] := rfl
      rw [he0]
      simp only [List.map_cons, List.map_nil, asEulerDegRow_zxy_one]
    rw [saveCore]
    rw [show buildHierarchyLines zeroMotionData.kinematic_tree [] = .ok
        (["HIERARCHY", "ROOT Root", "\x7b",
          "  OFFSET 0.000000 0.000000 0.000000",
          "  CHANNELS 6 Xposition Yposition Zposition Zrotation Xrotation Yrotation",
          "  JOINT A", "  \x7b", "    OFFSET 1.000000 0.000000 0.000000",
          "    CHANNELS 3 Zrotation Xrotation Yrotation", "    JOINT B",
          "    \x7b", "      OFFSET 0.000000 1.000000 0.000000",
          "      CHANNELS 3 Zrotation Xrotation Yrotation", "      End Site",
          "      \x7b", "        OFFSET 0.000000 0.000000 1.000000",
          "      \x7d", "    \x7d", "  \x7d", "\x7d"],
         ["Root", "A", "B"]) from by decide]
    dsimp only
    rw [he]
    dsimp only [List.isEmpty]
    rw [if_neg (by decide : ¬(false = true))]
    rfl
  have hC : savetxtText zeroSavedHeader
      [[(0 : ℝ), 0, 0, 0, 0, 0, 0, 0, 0, 0, 0, 0]] = zeroSavedText := by
    rw [savetxtText]
    simp only [List.map_cons, List.map_nil, fmtR_zero]
    rfl
  exact ⟨hA, hB, hC, hD⟩

/-- C6 counterexample: a consistent, loadable BVH whose only channels are
root positions loads successfully, but saving the loaded MotionData raises
ValueError (the default layouts declare rotation channels the data lacks),
so `save(load(text))` does not exist, let alone reload to the original. -/
theorem C6_counterexample :
    ∃ md, parseBvhContent posOnlyBvhText = .ok md ∧
      saveCore md [] = .error .valueError :=
  ⟨_, rfl, rfl⟩

/-! ### C10: empty tree construction -/

/-- C10: constructing a `KinematicTree` from an empty node collection
succeeds (the root-count validation is skipped for an empty dict) rather than
raising `NoRootError`, and the resulting tree has zero length and a `None`
root. -/
theorem C10_empty_tree_construction :
    fromNodes [] = .ok ⟨[]⟩ ∧
    KinematicTree.make [] = .ok ⟨[]⟩ ∧
    (KinematicTree.mk []).len = 0 ∧
    (KinematicTree.mk []).root = none := by
  refine ⟨rfl, rfl, rfl, rfl⟩

end Bvh
